import Mathlib

/-!
Verification of the html5lib-tests-bench fixture parser, tree normalizer,
decoder and exit-code logic.

Texts are modelled as lists of Unicode scalar values (`Str := List Char`),
byte strings as lists of naturals below 256.  Python string primitives
(`str.splitlines`, `str.strip`, `str.rstrip`, `str.lower`, `"\n".join`)
are embedded as executable functions below.
-/

set_option autoImplicit false

namespace HtmlBench

/-- A Python text string: a list of Unicode scalar values. -/
abbrev Str := List Char

/-- Coerce a Lean string literal to the `Str` model. -/
def ofS (s : String) : Str := s.data

/-- Characters that `str.splitlines` treats as line boundaries
(the `\r\n` pair is handled separately by `splitlines`). -/
def isLineBreak (c : Char) : Bool :=
  c = '\n' || c = '\r' || c = '\x0B' || c = '\x0C' ||
  c.toNat = 0x1c || c.toNat = 0x1d || c.toNat = 0x1e || c.toNat = 0x85 ||
  c.toNat = 0x2028 || c.toNat = 0x2029

/-- Characters stripped by Python `str.strip()` / `str.rstrip()`
(the `str.isspace` character class). -/
def pyIsSpace (c : Char) : Bool :=
  c = ' ' || c = '\t' || c = '\n' || c = '\r' || c = '\x0B' || c = '\x0C' ||
  (0x1c ≤ c.toNat && c.toNat ≤ 0x1f) || c.toNat = 0x85 || c.toNat = 0xa0 ||
  c.toNat = 0x1680 || (0x2000 ≤ c.toNat && c.toNat ≤ 0x200a) ||
  c.toNat = 0x2028 || c.toNat = 0x2029 || c.toNat = 0x202f ||
  c.toNat = 0x205f || c.toNat = 0x3000

/-- Python `str.splitlines()`: split at line-boundary characters, treating
`\r\n` as a single boundary; a trailing boundary does not produce a final
empty line. -/
def splitlines : Str → List Str
  | [] => []
  | c :: rest =>
    if c = '\r' then
      match rest with
      | c2 :: rest2 =>
        if c2 = '\n' then [] :: splitlines rest2 else [] :: splitlines (c2 :: rest2)
      | [] => [[]]
    else if isLineBreak c then
      [] :: splitlines rest
    else
      match splitlines rest with
      | [] => [[c]]
      | l :: ls => (c :: l) :: ls

/-- Drop trailing characters satisfying `p` (right-strip). -/
def dropTrailing (p : Char → Bool) (l : Str) : Str :=
  (l.reverse.dropWhile p).reverse

/-- Python `str.rstrip()` (default whitespace set). -/
def pyRstrip (l : Str) : Str := dropTrailing pyIsSpace l

/-- Python `str.lstrip()` (default whitespace set). -/
def pyLstrip (l : Str) : Str := l.dropWhile pyIsSpace

/-- Python `str.strip()` (default whitespace set). -/
def pyStrip (l : Str) : Str := pyRstrip (pyLstrip l)

/-- Test for the newline character, the argument of `strip` in
`.strip` applied with an explicit newline in the source. -/
def isNl (c : Char) : Bool := c = '\n'

/-- Python `s.strip` with the single-character set containing newline. -/
def stripNl (l : Str) : Str := dropTrailing isNl (l.dropWhile isNl)

/-- Python `s.rstrip` with the single-character set containing newline. -/
def rstripNl (l : Str) : Str := dropTrailing isNl l

/-- Python `"\n".join(lines)`. -/
def joinNl : List Str → Str
  | [] => []
  | [l] => l
  | l :: ls => l ++ '\n' :: joinNl ls

/-- Python `str.lower()` restricted to ASCII letters; the section-marker
keywords compared against it are pure ASCII. -/
def pyLowerChar (c : Char) : Char :=
  if 'A' ≤ c && c ≤ 'Z' then Char.ofNat (c.toNat + 32) else c

/-- Python `str.lower()` on a text (ASCII letters). -/
def pyLower (l : Str) : Str := l.map pyLowerChar

/-- `cli._normalize_expected_tree`: strip boundary newline characters, then
right-strip every line and re-join with newlines. -/
def normalizeTree (s : Str) : Str :=
  joinNl ((splitlines (stripNl s)).map pyRstrip)


/-! ## The `.dat` fixture parser (`html5lib_dat.py`) -/

/-- The `Html5libDatTest` dataclass. -/
structure Html5libDatTest where
  source_file : Str
  index : Nat
  data : Str
  expected_tree : Option Str
  fragment_context : Option Str
  scripting_enabled : Bool
deriving DecidableEq, Repr

/-- `_finalize_test`: build a test from the accumulated section buffers,
or `none` when no `#data` marker was seen. -/
def finalizeTest (source_file : Str) (index : Nat) (saw_data : Bool)
    (data_lines document_lines fragment_lines : List Str)
    (scripting_enabled : Bool) : Option Html5libDatTest :=
  if saw_data = false then
    none
  else
    let data := joinNl data_lines
    let fcEt : Option Str × Option Str :=
      match fragment_lines with
      | [] =>
        match document_lines with
        | [] => (none, none)
        | _ :: _ => (none, some (stripNl (joinNl document_lines)))
      | f0 :: frest =>
        let fc := pyStrip f0
        let fragment_context := if fc = [] then none else some fc
        let expected_tree_lines := if document_lines ≠ [] then document_lines else frest
        let expected_tree :=
          if expected_tree_lines ≠ [] then stripNl (joinNl expected_tree_lines) else []
        (fragment_context, some expected_tree)
    some { source_file := source_file, index := index, data := data,
           expected_tree := fcEt.2, fragment_context := fcEt.1,
           scripting_enabled := scripting_enabled }

/-- Expected tree as the spec sentence reads it, trimming ONLY trailing
newlines of the joined buffer: the claimed behaviour of `_finalize_test`. -/
def claimC2ExpectedTrailingOnly (document_lines fragment_lines : List Str) :
    Option Str :=
  match fragment_lines with
  | [] =>
    match document_lines with
    | [] => none
    | _ :: _ => some (rstripNl (joinNl document_lines))
  | _ :: frest =>
    let ls := if document_lines ≠ [] then document_lines else frest
    some (if ls ≠ [] then rstripNl (joinNl ls) else [])

/-- Expected tree with BOTH leading and trailing newlines trimmed from the
joined buffer (Python `strip` with a newline argument): the amended
reading of `_finalize_test`. -/
def claimC2ExpectedStripBoth (document_lines fragment_lines : List Str) :
    Option Str :=
  match fragment_lines with
  | [] =>
    match document_lines with
    | [] => none
    | _ :: _ => some (stripNl (joinNl document_lines))
  | _ :: frest =>
    let ls := if document_lines ≠ [] then document_lines else frest
    some (if ls ≠ [] then stripNl (joinNl ls) else [])

/-- The parser state: the mutable locals of `parse_html5lib_dat_text`. -/
structure ParseState where
  tests : List Html5libDatTest
  sect : Option Str
  saw_data : Bool
  data_lines : List Str
  document_lines : List Str
  fragment_lines : List Str
  test_index : Nat
  default_scripting_enabled : Bool
  current_test_scripting_enabled : Bool
deriving DecidableEq, Repr

/-- The nested `flush()` closure of `parse_html5lib_dat_text`. -/
def flush (source_file : Str) (s : ParseState) : ParseState :=
  match finalizeTest source_file s.test_index s.saw_data s.data_lines
      s.document_lines s.fragment_lines s.current_test_scripting_enabled with
  | some t =>
    { s with tests := s.tests ++ [t], test_index := s.test_index + 1,
             saw_data := false, data_lines := [], document_lines := [],
             fragment_lines := [] }
  | none =>
    { s with saw_data := false, data_lines := [], document_lines := [],
             fragment_lines := [] }

/-- Python `line.startswith` applied to the one-character hash marker. -/
def startsHash : Str → Bool
  | '#' :: _ => true
  | _ => false

/-- One iteration of the `for raw in text.splitlines()` loop. -/
def stepLine (source_file : Str) (s : ParseState) (raw : Str) : ParseState :=
  let line := rstripNl raw
  if startsHash line then
    let key := pyLower (pyStrip (line.drop 1))
    if key = ofS "script-on" then
      if s.data_lines ≠ [] then
        { s with current_test_scripting_enabled := true, sect := none }
      else
        { s with default_scripting_enabled := true, sect := none }
    else if key = ofS "script-off" then
      if s.data_lines ≠ [] then
        { s with current_test_scripting_enabled := false, sect := none }
      else
        { s with default_scripting_enabled := false, sect := none }
    else if key = ofS "data" then
      let s1 := if s.saw_data then flush source_file s else s
      { s1 with current_test_scripting_enabled := s1.default_scripting_enabled,
                saw_data := true, sect := some (ofS "data") }
    else if key = ofS "document" ∨ key = ofS "document-fragment" then
      { s with sect := some key }
    else
      { s with sect := none }
  else
    if s.sect = some (ofS "data") then
      { s with data_lines := s.data_lines ++ [line] }
    else if s.sect = some (ofS "document") then
      { s with document_lines := s.document_lines ++ [line] }
    else if s.sect = some (ofS "document-fragment") then
      { s with fragment_lines := s.fragment_lines ++ [line] }
    else
      s

/-- A raw input line whose processed form is the `#data` section marker:
the line starts with a hash and its stripped, lowered key is `data`. -/
def isDataMarkerLine (raw : Str) : Bool :=
  startsHash (rstripNl raw) &&
    decide (pyLower (pyStrip ((rstripNl raw).drop 1)) = ofS "data")

/-- A buffered line: it does not start with a hash and holds no
line-boundary characters. -/
def lineOk (l : Str) : Prop :=
  startsHash l = false ∧ ∀ c ∈ l, isLineBreak c = false

/-- No line of the case's `data`, nor of its expected tree when present,
starts with a hash. -/
def testHashFree (t : Html5libDatTest) : Prop :=
  (∀ l ∈ splitlines t.data, startsHash l = false) ∧
  (∀ e, t.expected_tree = some e → ∀ l ∈ splitlines e, startsHash l = false)

/-- All section buffers hold only marker-free, linebreak-free lines and all
emitted tests are hash-free. -/
def stateHashFree (s : ParseState) : Prop :=
  (∀ l ∈ s.data_lines, lineOk l) ∧ (∀ l ∈ s.document_lines, lineOk l) ∧
  (∀ l ∈ s.fragment_lines, lineOk l) ∧ (∀ t ∈ s.tests, testHashFree t)

/-- The initial parser state of `parse_html5lib_dat_text`. -/
def initState : ParseState :=
  { tests := [], sect := none, saw_data := false, data_lines := [],
    document_lines := [], fragment_lines := [], test_index := 0,
    default_scripting_enabled := false,
    current_test_scripting_enabled := false }

/-- `parse_html5lib_dat_text`: fold the line loop over `text.splitlines()`
and flush the final in-progress test. -/
def parseHtml5libDatText (text : Str) (source_file : Str) : List Html5libDatTest :=
  (flush source_file ((splitlines text).foldl (stepLine source_file) initState)).tests


/-! ## Byte decoding (`parse_html5lib_dat_file`)

Bytes are naturals below 256, decoded texts are lists of code points.
A Python `UnicodeDecodeError` is modelled as `none`. -/

/-- Strict UTF-8 decoding (`bytes.decode("utf-8")`): rejects overlong forms,
surrogates and code points above `0x10FFFF`, exactly as CPython does. -/
def utf8DecodeStrict : List Nat → Option (List Nat)
  | [] => some []
  | b :: rest =>
    if b < 0x80 then
      (utf8DecodeStrict rest).map (fun t => b :: t)
    else if 0xc2 ≤ b ∧ b ≤ 0xdf then
      match rest with
      | b2 :: rest2 =>
        if 0x80 ≤ b2 ∧ b2 ≤ 0xbf then
          (utf8DecodeStrict rest2).map (fun t => ((b - 0xc0) * 0x40 + (b2 - 0x80)) :: t)
        else none
      | [] => none
    else if 0xe0 ≤ b ∧ b ≤ 0xef then
      match rest with
      | b2 :: b3 :: rest2 =>
        let lo2 := if b = 0xe0 then 0xa0 else 0x80
        let hi2 := if b = 0xed then 0x9f else 0xbf
        if (lo2 ≤ b2 ∧ b2 ≤ hi2) ∧ (0x80 ≤ b3 ∧ b3 ≤ 0xbf) then
          (utf8DecodeStrict rest2).map
            (fun t => ((b - 0xe0) * 0x1000 + (b2 - 0x80) * 0x40 + (b3 - 0x80)) :: t)
        else none
      | _ => none
    else if 0xf0 ≤ b ∧ b ≤ 0xf4 then
      match rest with
      | b2 :: b3 :: b4 :: rest2 =>
        let lo2 := if b = 0xf0 then 0x90 else 0x80
        let hi2 := if b = 0xf4 then 0x8f else 0xbf
        if (lo2 ≤ b2 ∧ b2 ≤ hi2) ∧ (0x80 ≤ b3 ∧ b3 ≤ 0xbf) ∧ (0x80 ≤ b4 ∧ b4 ≤ 0xbf) then
          (utf8DecodeStrict rest2).map
            (fun t => ((b - 0xf0) * 0x40000 + (b2 - 0x80) * 0x1000 +
              (b3 - 0x80) * 0x40 + (b4 - 0x80)) :: t)
        else none
      | _ => none
    else none

/-- Group a UTF-16 byte stream into 16-bit units; an odd trailing byte is a
decode error. -/
def utf16Units (le : Bool) : List Nat → Option (List Nat)
  | [] => some []
  | [_] => none
  | a :: b :: rest =>
    (utf16Units le rest).map
      (fun t => (if le then a + 0x100 * b else 0x100 * a + b) :: t)

/-- Combine UTF-16 units, pairing surrogates; a lone surrogate is a decode
error. -/
def utf16Combine : List Nat → Option (List Nat)
  | [] => some []
  | u :: rest =>
    if 0xd800 ≤ u ∧ u ≤ 0xdbff then
      match rest with
      | v :: rest2 =>
        if 0xdc00 ≤ v ∧ v ≤ 0xdfff then
          (utf16Combine rest2).map
            (fun t => (0x10000 + (u - 0xd800) * 0x400 + (v - 0xdc00)) :: t)
        else none
      | [] => none
    else if 0xdc00 ≤ u ∧ u ≤ 0xdfff then none
    else (utf16Combine rest).map (fun t => u :: t)

def BOM_UTF8 : List Nat := [0xef, 0xbb, 0xbf]
def BOM_UTF16_LE : List Nat := [0xff, 0xfe]
def BOM_UTF16_BE : List Nat := [0xfe, 0xff]

/-- `bytes.decode("utf-16")`: consume a leading byte-order mark to choose
endianness (CPython defaults to little-endian when none is present). -/
def pyUtf16Decode (data : List Nat) : Option (List Nat) :=
  if BOM_UTF16_LE.isPrefixOf data then (utf16Units true (data.drop 2)).bind utf16Combine
  else if BOM_UTF16_BE.isPrefixOf data then (utf16Units false (data.drop 2)).bind utf16Combine
  else (utf16Units true data).bind utf16Combine

/-- The decoding policy of `parse_html5lib_dat_file`: UTF-8 BOM means
`utf-8-sig` (strip the mark, then strict UTF-8); a UTF-16 BOM of either
endianness means `utf-16`; otherwise strict UTF-8 with a latin-1 fallback
that maps each byte to the code point of the same value.  `none` models an
uncaught `UnicodeDecodeError`. -/
def decodeDatBytes (data : List Nat) : Option (List Nat) :=
  if BOM_UTF8.isPrefixOf data then
    utf8DecodeStrict (data.drop 3)
  else if BOM_UTF16_LE.isPrefixOf data ∨ BOM_UTF16_BE.isPrefixOf data then
    pyUtf16Decode data
  else
    match utf8DecodeStrict data with
    | some t => some t
    | none => some data


/-! ## Exit-code selection (`cli.main`, final lines)

One `BrowserSummary` per backend mirrors `summary[b]`; launch failures also
increment `error` in the source, so they are covered by the same counter. -/

structure BrowserSummary where
  pass : Nat
  fail : Nat
  error : Nat
  skip : Nat
deriving DecidableEq, Repr

/-- The exit-code computation at the end of `cli.main`: errors first, then
failures when comparison is enabled, else success. -/
def mainExitCode (summaries : List BrowserSummary) (no_compare : Bool) : Nat :=
  if summaries.any (fun s => s.error != 0) then 2
  else if no_compare = false ∧ summaries.any (fun s => s.fail != 0) then 3
  else 0

/-- The comparison outcome of `cli.main` lines 151-162: normalize both trees
with `_normalize_expected_tree` and test string equality (`pass` ↔ `equal`,
`fail` ↔ `different`). -/
inductive MatchResult where
  | equal : MatchResult
  | different : MatchResult
deriving DecidableEq, Repr

/-- `cli.main`'s comparison of an expected and an actual tree. -/
def compareTrees (expected actual : Str) : MatchResult :=
  if normalizeTree actual = normalizeTree expected then .equal else .different

/-- Assemble a text from core lines `C`, per-line trailing padding `W`
(appended to the corresponding core line) and `e1`/`e2` extra empty lines
before and after; used to state which texts normalize identically. -/
def buildText (C W : List Str) (e1 e2 : Nat) : Str :=
  joinNl (List.replicate e1 [] ++ List.zipWith (fun c w => c ++ w) C W ++
    List.replicate e2 [])

/-- The padding discipline of one core line: padding consists of
non-linebreak whitespace, and empty core lines receive no padding. -/
def PadOk (c w : Str) : Prop :=
  (∀ ch ∈ w, pyIsSpace ch = true ∧ isLineBreak ch = false) ∧ (c = [] → w = [])

/-- Drop trailing empty lines of a line list. -/
def dropTrailingEmpty : List Str → List Str
  | [] => []
  | a :: A =>
    match dropTrailingEmpty A with
    | [] => if a.isEmpty then [] else [a]
    | b :: B => a :: b :: B

/-- Drop leading and trailing empty lines of a line list. -/
def trimEmptyLines (L : List Str) : List Str :=
  dropTrailingEmpty (L.dropWhile List.isEmpty)

/-- Lines related by emptiness and by right-stripped value. -/
def LineRel (c z : Str) : Prop := (z = [] ↔ c = []) ∧ pyRstrip z = pyRstrip c

/-! ## Sanity checks on concrete inputs -/

example : splitlines (ofS "a\nb") = [ofS "a", ofS "b"] := by decide
example : splitlines (ofS "a\n") = [ofS "a"] := by decide
example : splitlines (ofS "a\r\nb") = [ofS "a", ofS "b"] := by decide
example : splitlines (ofS "\n") = [ofS ""] := by decide
example : splitlines (ofS "") = [] := by decide
example : splitlines (ofS "a\r\rb") = [ofS "a", ofS "", ofS "b"] := by decide
example : normalizeTree (ofS " \na") = ofS "\na" := by decide
example : normalizeTree (ofS "\na") = ofS "a" := by decide
example : normalizeTree (ofS "a \n b\n") = ofS "a\n b" := by decide
example :
    (parseHtml5libDatText (ofS "#data\nOne\n#document\n| <html>\n\n#data\nTwo\n#document\n| <html>\n")
      (ofS "x.dat")).map (fun t => t.data) = [ofS "One", ofS "Two"] := by decide

example :
    (parseHtml5libDatText (ofS "#data\n<b>Hi\n#document-fragment\ndiv\n| <b>\n")
      (ofS "x.dat")).map (fun t => (t.fragment_context, t.expected_tree)) =
      [(some (ofS "div"), some (ofS "| <b>"))] := by decide

example :
    (parseHtml5libDatText (ofS "#data\n#script-on\n#data\nx") (ofS "x.dat")).map
      (fun t => t.scripting_enabled) = [false, true] := by decide
example : decodeDatBytes [0x61, 0xfe] = some [0x61, 0xfe] := by decide
example : decodeDatBytes [0x61, 0xc3, 0xa9] = some [0x61, 0xe9] := by decide
example : decodeDatBytes [0xef, 0xbb, 0xbf, 0x41] = some [0x41] := by decide
example : decodeDatBytes [0xff, 0xfe, 0x41, 0x00] = some [0x41] := by decide
example : decodeDatBytes [0xff, 0xfe, 0x41] = none := by decide
example : decodeDatBytes [0xef, 0xbb, 0xbf, 0xfe] = none := by decide
example : mainExitCode [⟨3, 0, 1, 0⟩, ⟨2, 1, 0, 0⟩] false = 2 := by decide
example : mainExitCode [⟨3, 1, 0, 0⟩] false = 3 := by decide
example : mainExitCode [⟨3, 1, 0, 0⟩] true = 0 := by decide

example : mainExitCode [⟨3, 0, 0, 2⟩] false = 0 := by decide

/-! ## Lemmas about the string model -/

theorem dropWhile_eq_self_of_all {α : Type} {p : α → Bool} {l : List α}
    (h : ∀ c ∈ l, p c = false) : l.dropWhile p = l := by
  cases l with
  | nil => rfl
  | cons c rest =>
    rw [List.dropWhile_cons, h c (List.mem_cons_self c rest)]
    simp

theorem dropWhile_append_of_all {α : Type} {p : α → Bool} {a : List α} (b : List α)
    (h : ∀ c ∈ a, p c = true) : (a ++ b).dropWhile p = b.dropWhile p := by
  induction a with
  | nil => rfl
  | cons c rest ih =>
    rw [List.cons_append, List.dropWhile_cons, h c (List.mem_cons_self c rest)]
    simp only [ite_true]
    exact ih (fun x hx => h x (List.mem_cons_of_mem c hx))

theorem mem_dropWhile {α : Type} {p : α → Bool} {l : List α} {x : α}
    (h : x ∈ l.dropWhile p) : x ∈ l := by
  induction l with
  | nil => exact absurd h (List.not_mem_nil x)
  | cons c rest ih =>
    rw [List.dropWhile_cons] at h
    by_cases hc : p c = true
    · simp only [hc, ite_true] at h
      exact List.mem_cons_of_mem c (ih h)
    · simp only [hc, ite_false] at h
      exact h

theorem dropWhile_idem {α : Type} {p : α → Bool} (l : List α) :
    (l.dropWhile p).dropWhile p = l.dropWhile p := by
  induction l with
  | nil => rfl
  | cons c rest ih =>
    rw [List.dropWhile_cons]
    by_cases hc : p c = true
    · simpa [hc] using ih
    · simp [List.dropWhile_cons, hc]

theorem dropWhile_append_full {α : Type} [DecidableEq α] {p : α → Bool} (a b : List α) :
    (a ++ b).dropWhile p =
      (if a.dropWhile p = [] then b.dropWhile p else a.dropWhile p ++ b) := by
  induction a with
  | nil => simp
  | cons c rest ih =>
    rw [List.cons_append, List.dropWhile_cons, List.dropWhile_cons]
    by_cases hc : p c = true
    · simpa [hc] using ih
    · simp [hc]

theorem dropTrailing_eq_self_of_all {p : Char → Bool} {l : Str}
    (h : ∀ c ∈ l, p c = false) : dropTrailing p l = l := by
  unfold dropTrailing
  rw [dropWhile_eq_self_of_all (fun c hc => h c (List.mem_reverse.mp hc))]
  exact List.reverse_reverse l

theorem mem_dropTrailing {p : Char → Bool} {l : Str} {x : Char}
    (h : x ∈ dropTrailing p l) : x ∈ l := by
  unfold dropTrailing at h
  exact List.mem_reverse.mp (mem_dropWhile (List.mem_reverse.mp h))

theorem dropTrailing_idem {p : Char → Bool} (l : Str) :
    dropTrailing p (dropTrailing p l) = dropTrailing p l := by
  unfold dropTrailing
  rw [List.reverse_reverse, dropWhile_idem]

theorem dropTrailing_append_of_all {p : Char → Bool} (a : Str) {b : Str}
    (h : ∀ c ∈ b, p c = true) : dropTrailing p (a ++ b) = dropTrailing p a := by
  unfold dropTrailing
  rw [List.reverse_append, dropWhile_append_of_all _
    (fun c hc => h c (List.mem_reverse.mp hc))]

theorem pyRstrip_idem (l : Str) : pyRstrip (pyRstrip l) = pyRstrip l :=
  dropTrailing_idem l

theorem pyRstrip_append_of_space (a : Str) {w : Str}
    (h : ∀ c ∈ w, pyIsSpace c = true) : pyRstrip (a ++ w) = pyRstrip a :=
  dropTrailing_append_of_all a h

theorem mem_pyRstrip {l : Str} {x : Char} (h : x ∈ pyRstrip l) : x ∈ l :=
  mem_dropTrailing h

/-! ### `joinNl` -/

theorem joinNl_nil : joinNl [] = [] := rfl

theorem joinNl_single (l : Str) : joinNl [l] = l := rfl

theorem joinNl_cons {ls : List Str} (l : Str) (h : ls ≠ []) :
    joinNl (l :: ls) = l ++ '\n' :: joinNl ls := by
  cases ls with
  | nil => exact absurd rfl h
  | cons l' ls' => rfl

theorem joinNl_append_single (A : List Str) (x : Str) :
    joinNl (A ++ [x]) = if A = [] then x else joinNl A ++ '\n' :: x := by
  induction A with
  | nil => rfl
  | cons a A' ih =>
    rw [List.cons_append, joinNl_cons a (by simp)]
    cases A' with
    | nil => simp [joinNl_nil, joinNl_single]
    | cons b B =>
      rw [ih]
      simp only [List.cons_ne_nil, ite_false]
      rw [joinNl_cons a (by simp)]
      simp

theorem reverse_joinNl (L : List Str) :
    (joinNl L).reverse = joinNl ((L.map List.reverse).reverse) := by
  induction L with
  | nil => rfl
  | cons l ls ih =>
    cases ls with
    | nil => simp [joinNl_single]
    | cons l' ls' =>
      rw [joinNl_cons l (by simp)]
      have hA : (List.map List.reverse (l' :: ls')).reverse ≠ [] := by simp
      calc (l ++ '\n' :: joinNl (l' :: ls')).reverse
          = (joinNl (l' :: ls')).reverse ++ '\n' :: l.reverse := by simp
        _ = joinNl ((List.map List.reverse (l' :: ls')).reverse) ++ '\n' :: l.reverse := by
              rw [ih]
        _ = joinNl ((List.map List.reverse (l :: l' :: ls')).reverse) := by
              conv_rhs => rw [List.map_cons, List.reverse_cons, joinNl_append_single]
              rw [if_neg hA]

/-! ### `splitlines` -/

theorem splitlines_cons (c : Char) (rest : Str) :
    splitlines (c :: rest) =
      (if c = '\r' then
        match rest with
        | c2 :: rest2 =>
          if c2 = '\n' then [] :: splitlines rest2 else [] :: splitlines (c2 :: rest2)
        | [] => [[]]
      else if isLineBreak c then
        [] :: splitlines rest
      else
        match splitlines rest with
        | [] => [[c]]
        | l :: ls => (c :: l) :: ls) := by
  rw [splitlines.eq_def]
  rfl

theorem splitlines_cons_break {c : Char} (rest : Str) (h : isLineBreak c = true)
    (hc : c ≠ '\r') : splitlines (c :: rest) = [] :: splitlines rest := by
  rw [splitlines_cons, if_neg hc, if_pos h]

theorem splitlines_cons_nonbreak {c : Char} (rest : Str) (h : isLineBreak c = false) :
    splitlines (c :: rest) =
      (match splitlines rest with
       | [] => [[c]]
       | l :: ls => (c :: l) :: ls) := by
  have hc : c ≠ '\r' := by
    intro e; subst e; simp [isLineBreak] at h
  rw [splitlines_cons, if_neg hc, if_neg (by simp [h])]

theorem mem_splitlines_no_linebreak :
    ∀ (s : Str), ∀ l ∈ splitlines s, ∀ c ∈ l, isLineBreak c = false := by
  intro s
  induction s using splitlines.induct with
  | case1 =>
    intro l hl
    exact absurd hl (List.not_mem_nil l)
  | case2 rest2 ih =>
    intro l hl c hc
    rw [show splitlines ('\r' :: '\n' :: rest2) = [] :: splitlines rest2 from by
      rw [splitlines_cons]; rfl] at hl
    rcases List.mem_cons.mp hl with h | h
    · subst h; exact absurd hc (List.not_mem_nil c)
    · exact ih l h c hc
  | case3 c2 rest2 hne ih =>
    intro l hl c hc
    rw [show splitlines ('\r' :: c2 :: rest2) = [] :: splitlines (c2 :: rest2) from by
      rw [splitlines_cons, if_pos rfl]; simp [hne]] at hl
    rcases List.mem_cons.mp hl with h | h
    · subst h; exact absurd hc (List.not_mem_nil c)
    · exact ih l h c hc
  | case4 =>
    intro l hl c hc
    rw [show splitlines ['\r'] = [[]] from by rw [splitlines_cons]; rfl] at hl
    rcases List.mem_cons.mp hl with h | h
    · subst h; exact absurd hc (List.not_mem_nil c)
    · exact absurd h (List.not_mem_nil l)
  | case5 c rest hne hbr ih =>
    intro l hl x hx
    rw [splitlines_cons_break rest hbr hne] at hl
    rcases List.mem_cons.mp hl with h | h
    · subst h; exact absurd hx (List.not_mem_nil x)
    · exact ih l h x hx
  | case6 c rest hne hbr hnil ih =>
    intro l hl x hx
    rw [splitlines_cons_nonbreak rest (Bool.not_eq_true _ ▸ hbr), hnil] at hl
    rcases List.mem_cons.mp hl with h | h
    · subst h
      rcases List.mem_cons.mp hx with h' | h'
      · subst h'
        exact Bool.not_eq_true _ ▸ hbr
      · exact absurd h' (List.not_mem_nil x)
    · exact absurd h (List.not_mem_nil l)
  | case7 c rest hne hbr l0 ls0 heq ih =>
    intro l hl x hx
    rw [splitlines_cons_nonbreak rest (Bool.not_eq_true _ ▸ hbr), heq] at hl
    rcases List.mem_cons.mp hl with h | h
    · subst h
      rcases List.mem_cons.mp hx with h' | h'
      · subst h'
        exact Bool.not_eq_true _ ▸ hbr
      · exact ih l0 (heq ▸ List.mem_cons_self l0 ls0) x h'
    · exact ih l (heq ▸ List.mem_cons_of_mem l0 h) x hx

theorem splitlines_append_nl {l : Str} (t : Str)
    (h : ∀ c ∈ l, isLineBreak c = false) :
    splitlines (l ++ '\n' :: t) = l :: splitlines t := by
  induction l with
  | nil =>
    rw [List.nil_append, splitlines_cons_break t (by decide) (by decide)]
  | cons c l' ih =>
    have hc : isLineBreak c = false := h c (List.mem_cons_self c l')
    rw [List.cons_append, splitlines_cons_nonbreak _ hc,
      ih (fun x hx => h x (List.mem_cons_of_mem c hx))]

theorem splitlines_single {l : Str} (hne : l ≠ [])
    (h : ∀ c ∈ l, isLineBreak c = false) : splitlines l = [l] := by
  induction l with
  | nil => exact absurd rfl hne
  | cons c l' ih =>
    have hc : isLineBreak c = false := h c (List.mem_cons_self c l')
    rw [splitlines_cons_nonbreak _ hc]
    cases hl' : l' with
    | nil => rfl
    | cons d l'' =>
      rw [← hl', ih (by rw [hl']; exact List.cons_ne_nil d l'')
        (fun x hx => h x (List.mem_cons_of_mem c hx))]

theorem splitlines_joinNl {L : List Str}
    (hlb : ∀ l ∈ L, ∀ c ∈ l, isLineBreak c = false)
    (hlast : L.getLast? ≠ some []) : splitlines (joinNl L) = L := by
  induction L with
  | nil => rfl
  | cons l ls ih =>
    cases ls with
    | nil =>
      rw [joinNl_single]
      refine splitlines_single ?_ (hlb l (List.mem_cons_self l []))
      intro e
      subst e
      exact hlast rfl
    | cons l' ls' =>
      rw [joinNl_cons l (by simp),
        splitlines_append_nl _ (hlb l (List.mem_cons_self l _)),
        ih (fun x hx => hlb x (List.mem_cons_of_mem l hx))
          (by rwa [List.getLast?_cons_cons] at hlast)]

theorem mem_splitlines_joinNl {L : List Str}
    (hlb : ∀ l ∈ L, ∀ c ∈ l, isLineBreak c = false) :
    ∀ x ∈ splitlines (joinNl L), x ∈ L ∨ x = [] := by
  induction L with
  | nil =>
    intro x hx
    exact absurd hx (List.not_mem_nil x)
  | cons l ls ih =>
    cases ls with
    | nil =>
      rw [joinNl_single]
      intro x hx
      by_cases hl : l = []
      · subst hl
        exact absurd hx (List.not_mem_nil x)
      · rw [splitlines_single hl (hlb l (List.mem_cons_self l []))] at hx
        rcases List.mem_cons.mp hx with h | h
        · exact Or.inl (h ▸ List.mem_cons_self l [])
        · exact absurd h (List.not_mem_nil x)
    | cons l' ls' =>
      rw [joinNl_cons l (by simp),
        splitlines_append_nl _ (hlb l (List.mem_cons_self l _))]
      intro x hx
      rcases List.mem_cons.mp hx with h | h
      · exact Or.inl (h ▸ List.mem_cons_self l _)
      · rcases ih (fun y hy => hlb y (List.mem_cons_of_mem l hy)) x h with h' | h'
        · exact Or.inl (List.mem_cons_of_mem l h')
        · exact Or.inr h'

/-! ### Trimming empty boundary lines of a line list -/

theorem mem_dropTrailingEmpty {A : List Str} {x : Str}
    (h : x ∈ dropTrailingEmpty A) : x ∈ A := by
  induction A with
  | nil => exact absurd h (List.not_mem_nil x)
  | cons a A' ih =>
    rw [dropTrailingEmpty] at h
    cases hA : dropTrailingEmpty A' with
    | nil =>
      rw [hA] at h
      by_cases ha : a.isEmpty
      · simp [ha] at h
      · simp only [ha, Bool.false_eq_true, ite_false] at h
        rcases List.mem_cons.mp h with h' | h'
        · exact h' ▸ List.mem_cons_self a A'
        · exact absurd h' (List.not_mem_nil x)
    | cons b B =>
      rw [hA] at h
      rcases List.mem_cons.mp h with h' | h'
      · exact h' ▸ List.mem_cons_self a A'
      · exact List.mem_cons_of_mem a (ih (hA ▸ h'))

theorem dropTrailingEmpty_idem (A : List Str) :
    dropTrailingEmpty (dropTrailingEmpty A) = dropTrailingEmpty A := by
  induction A with
  | nil => rfl
  | cons a A' ih =>
    rw [dropTrailingEmpty]
    cases hA : dropTrailingEmpty A' with
    | nil =>
      by_cases ha : a.isEmpty
      · simp [ha, dropTrailingEmpty]
      · simp only [ha, Bool.false_eq_true, ite_false]
        rw [dropTrailingEmpty, dropTrailingEmpty]
        simp [ha]
    | cons b B =>
      rw [dropTrailingEmpty]
      rw [hA] at ih
      rw [ih]

theorem getLast?_dropTrailingEmpty (A : List Str) :
    ∀ x, (dropTrailingEmpty A).getLast? = some x → x ≠ [] := by
  induction A with
  | nil => intro x hx; cases hx
  | cons a A' ih =>
    intro x hx
    rw [dropTrailingEmpty] at hx
    cases hA : dropTrailingEmpty A' with
    | nil =>
      rw [hA] at hx
      by_cases ha : a.isEmpty
      · simp [ha] at hx
      · simp only [ha, Bool.false_eq_true, ite_false, List.getLast?_singleton,
          Option.some.injEq] at hx
        subst hx
        simpa using ha
    | cons b B =>
      rw [hA] at hx
      rw [List.getLast?_cons_cons] at hx
      exact ih x (hA ▸ hx)

theorem dropWhile_isEmpty_dropTrailingEmpty {A : List Str}
    (h : A.dropWhile List.isEmpty = A) :
    (dropTrailingEmpty A).dropWhile List.isEmpty = dropTrailingEmpty A := by
  cases A with
  | nil => rfl
  | cons a A' =>
    have ha : a.isEmpty = false := by
      by_contra hcon
      have ha' : a.isEmpty = true := by
        cases h' : a.isEmpty
        · exact absurd h' hcon
        · rfl
      rw [List.dropWhile_cons, ha'] at h
      simp only [ite_true] at h
      have hlen := congrArg List.length h
      have hle := (List.dropWhile_suffix (l := A')
        (p := List.isEmpty)).sublist.length_le
      simp only [List.length_cons] at hlen
      omega
    rw [dropTrailingEmpty]
    cases hA : dropTrailingEmpty A' with
    | nil =>
      simp [ha]
    | cons b B =>
      rw [List.dropWhile_cons, ha]
      simp

theorem trimEmptyLines_idem (L : List Str) :
    trimEmptyLines (trimEmptyLines L) = trimEmptyLines L := by
  unfold trimEmptyLines
  rw [dropWhile_isEmpty_dropTrailingEmpty (dropWhile_idem L),
    dropTrailingEmpty_idem]

theorem mem_trimEmptyLines {L : List Str} {x : Str}
    (h : x ∈ trimEmptyLines L) : x ∈ L :=
  mem_dropWhile (mem_dropTrailingEmpty h)

theorem getLast?_trimEmptyLines (L : List Str) :
    ∀ x, (trimEmptyLines L).getLast? = some x → x ≠ [] :=
  getLast?_dropTrailingEmpty _

/-! ### `stripNl` over joined lines -/

theorem isNl_eq_false {c : Char} (h : isLineBreak c = false) : isNl c = false := by
  cases hc : isNl c
  · rfl
  · exfalso
    have hcn : c = '\n' := by
      unfold isNl at hc
      exact of_decide_eq_true hc
    subst hcn
    simp [isLineBreak] at h

theorem isEmpty_reverse (l : Str) : l.reverse.isEmpty = l.isEmpty := by
  cases l with
  | nil => rfl
  | cons c rest =>
    have h1 : (c :: rest).reverse ≠ [] := by simp
    cases h : (c :: rest).reverse with
    | nil => exact absurd h h1
    | cons d ds => rfl

theorem dropWhileNl_joinNl {L : List Str}
    (hlb : ∀ l ∈ L, ∀ c ∈ l, isLineBreak c = false) :
    (joinNl L).dropWhile isNl = joinNl (L.dropWhile List.isEmpty) := by
  induction L with
  | nil => rfl
  | cons l ls ih =>
    by_cases hl : l = []
    · subst hl
      cases ls with
      | nil => rfl
      | cons l' ls' =>
        rw [joinNl_cons _ (by simp), List.nil_append, List.dropWhile_cons]
        simp only [show isNl '\n' = true from rfl, ite_true]
        rw [ih (fun x hx => hlb x (List.mem_cons_of_mem _ hx))]
        conv_rhs => rw [List.dropWhile_cons]
        simp
    · obtain ⟨c, l'', rfl⟩ := List.exists_cons_of_ne_nil hl
      have hc : isNl c = false :=
        isNl_eq_false (hlb _ (List.mem_cons_self _ ls) c (List.mem_cons_self c l''))
      have hrhs : (((c :: l'') :: ls).dropWhile List.isEmpty) = (c :: l'') :: ls := by
        rw [List.dropWhile_cons]
        simp [List.isEmpty]
      rw [hrhs]
      cases ls with
      | nil =>
        show List.dropWhile isNl (c :: l'') = joinNl [c :: l'']
        rw [List.dropWhile_cons, hc]
        simp [joinNl_single]
      | cons l' ls' =>
        rw [joinNl_cons _ (by simp), List.cons_append, List.dropWhile_cons, hc]
        simp

theorem dropTrailingEmpty_eq_rev (M : List Str) :
    ((((M.map List.reverse).reverse).dropWhile List.isEmpty).map List.reverse).reverse
      = dropTrailingEmpty M := by
  induction M with
  | nil => rfl
  | cons a M' ih =>
    have hsplit : ((a :: M').map List.reverse).reverse =
        (M'.map List.reverse).reverse ++ [a.reverse] := by
      simp
    rw [hsplit, dropWhile_append_full, dropTrailingEmpty]
    by_cases hX : ((M'.map List.reverse).reverse).dropWhile List.isEmpty = []
    · have hM' : dropTrailingEmpty M' = [] := by
        rw [← ih, hX]
        rfl
      rw [if_pos hX, hM']
      rw [List.dropWhile_cons]
      rw [isEmpty_reverse]
      by_cases ha : a.isEmpty
      · simp [ha]
      · simp [ha]
    · have hM' : dropTrailingEmpty M' ≠ [] := by
        rw [← ih]
        simp only [ne_eq, List.reverse_eq_nil_iff, List.map_eq_nil_iff]
        exact hX
      rw [if_neg hX]
      obtain ⟨b, B, hBB⟩ :=
        List.exists_cons_of_ne_nil hM'
      rw [hBB]
      have hstep :
          (List.map List.reverse
            (((M'.map List.reverse).reverse).dropWhile List.isEmpty ++ [a.reverse])).reverse =
          a :: (List.map List.reverse
            (((M'.map List.reverse).reverse).dropWhile List.isEmpty)).reverse := by
        simp
      rw [hstep, ih, hBB]

theorem stripNl_joinNl {L : List Str}
    (hlb : ∀ l ∈ L, ∀ c ∈ l, isLineBreak c = false) :
    stripNl (joinNl L) = joinNl (trimEmptyLines L) := by
  unfold stripNl trimEmptyLines
  rw [dropWhileNl_joinNl hlb]
  have hlbM : ∀ l ∈ L.dropWhile List.isEmpty, ∀ c ∈ l, isLineBreak c = false :=
    fun l hl => hlb l (mem_dropWhile hl)
  unfold dropTrailing
  rw [reverse_joinNl]
  have hlbR : ∀ l ∈ (((L.dropWhile List.isEmpty).map List.reverse).reverse),
      ∀ c ∈ l, isLineBreak c = false := by
    intro l hl c hc
    rw [List.mem_reverse, List.mem_map] at hl
    obtain ⟨y, hy, rfl⟩ := hl
    exact hlbM y hy c (List.mem_reverse.mp hc)
  rw [dropWhileNl_joinNl hlbR, reverse_joinNl, dropTrailingEmpty_eq_rev]

/-- Evaluate `normalizeTree` on a newline-join of linebreak-free lines:
trim empty boundary lines, then right-strip each survivor. -/
theorem normalizeTree_joinNl {L : List Str}
    (hlb : ∀ l ∈ L, ∀ c ∈ l, isLineBreak c = false) :
    normalizeTree (joinNl L) = joinNl ((trimEmptyLines L).map pyRstrip) := by
  unfold normalizeTree
  rw [stripNl_joinNl hlb]
  by_cases hT : trimEmptyLines L = []
  · rw [hT]
    rfl
  · rw [splitlines_joinNl (fun l hl => hlb l (mem_trimEmptyLines hl)) ?hlast]
    case hlast =>
      intro he
      rcases hx : (trimEmptyLines L).getLast? with _ | x
      · rw [hx] at he
        cases he
      · rw [hx] at he
        injection he with he'
        exact getLast?_trimEmptyLines L x hx he'

theorem map_pyRstrip_eq_self {L : List Str} (h : ∀ l ∈ L, pyRstrip l = l) :
    L.map pyRstrip = L := by
  induction L with
  | nil => rfl
  | cons l ls ih =>
    rw [List.map_cons, h l (List.mem_cons_self l ls),
      ih (fun x hx => h x (List.mem_cons_of_mem l hx))]

theorem normalized_lines_linebreak_free (s : Str) :
    ∀ l ∈ (splitlines (stripNl s)).map pyRstrip, ∀ c ∈ l, isLineBreak c = false := by
  intro l hl c hc
  obtain ⟨y, hy, rfl⟩ := List.mem_map.mp hl
  exact mem_splitlines_no_linebreak (stripNl s) y hy c (mem_pyRstrip hc)

theorem normalized_lines_fixed (s : Str) :
    ∀ l ∈ (splitlines (stripNl s)).map pyRstrip, pyRstrip l = l := by
  intro l hl
  obtain ⟨y, hy, rfl⟩ := List.mem_map.mp hl
  exact pyRstrip_idem y

/-! ### Padding-invariance of normalization -/

theorem isEmpty_false {l : Str} (h : l ≠ []) : l.isEmpty = false := by
  cases l with
  | nil => exact absurd rfl h
  | cons a t => rfl

theorem forall₂_dropWhile_isEmpty {C Z : List Str}
    (h : List.Forall₂ LineRel C Z) :
    List.Forall₂ LineRel (C.dropWhile List.isEmpty) (Z.dropWhile List.isEmpty) := by
  induction h with
  | nil => exact List.Forall₂.nil
  | @cons c z C' Z' hcz hrest ih =>
    rw [List.dropWhile_cons, List.dropWhile_cons]
    by_cases hc : c = []
    · have hz : z = [] := hcz.1.mpr hc
      rw [hc, hz]
      simpa using ih
    · have hz : z ≠ [] := fun e => hc (hcz.1.mp e)
      rw [isEmpty_false hc, isEmpty_false hz]
      simpa using List.Forall₂.cons hcz hrest

theorem forall₂_dropTrailingEmpty {C Z : List Str}
    (h : List.Forall₂ LineRel C Z) :
    (dropTrailingEmpty Z).map pyRstrip = (dropTrailingEmpty C).map pyRstrip ∧
    (dropTrailingEmpty Z = [] ↔ dropTrailingEmpty C = []) := by
  induction h with
  | nil => exact ⟨rfl, Iff.rfl⟩
  | @cons c z C' Z' hcz hrest ih =>
    rw [dropTrailingEmpty, dropTrailingEmpty]
    cases hC' : dropTrailingEmpty C' with
    | nil =>
      have hZ' : dropTrailingEmpty Z' = [] := ih.2.mpr hC'
      rw [hZ']
      by_cases hc : c = []
      · have hz : z = [] := hcz.1.mpr hc
        rw [hc, hz]
        exact ⟨rfl, Iff.rfl⟩
      · have hz : z ≠ [] := fun e => hc (hcz.1.mp e)
        rw [isEmpty_false hc, isEmpty_false hz]
        refine ⟨?_, by simp⟩
        simp only [ite_false, Bool.false_eq_true, List.map_cons, List.map_nil]
        rw [hcz.2]
    | cons b B =>
      have hZ' : dropTrailingEmpty Z' ≠ [] := by
        intro e
        rw [ih.2.mp e] at hC'
        cases hC'
      obtain ⟨b', B', hZB⟩ := List.exists_cons_of_ne_nil hZ'
      rw [hZB]
      refine ⟨?_, by simp⟩
      simp only [List.map_cons]
      rw [hcz.2]
      have := ih.1
      rw [hC', hZB] at this
      simp only [List.map_cons] at this
      rw [this]

theorem padOk_lineRel {C W : List Str} (h : List.Forall₂ PadOk C W) :
    List.Forall₂ LineRel C (List.zipWith (fun c w => c ++ w) C W) := by
  induction h with
  | nil => exact List.Forall₂.nil
  | @cons c w C' W' hcw hrest ih =>
    rw [List.zipWith_cons_cons]
    refine List.Forall₂.cons ⟨?_, ?_⟩ ih
    · constructor
      · intro e
        exact (List.append_eq_nil.mp e).1
      · intro e
        rw [e, hcw.2 e]
        rfl
    · exact pyRstrip_append_of_space c (fun ch hch => (hcw.1 ch hch).1)

theorem padded_linebreak_free {C W : List Str} (h : List.Forall₂ PadOk C W)
    (hC : ∀ l ∈ C, ∀ ch ∈ l, isLineBreak ch = false) :
    ∀ l ∈ List.zipWith (fun c w => c ++ w) C W, ∀ ch ∈ l, isLineBreak ch = false := by
  induction h with
  | nil =>
    intro l hl
    exact absurd hl (List.not_mem_nil l)
  | @cons c w C' W' hcw hrest ih =>
    rw [List.zipWith_cons_cons]
    intro l hl ch hch
    rcases List.mem_cons.mp hl with h' | h'
    · subst h'
      rcases List.mem_append.mp hch with h'' | h''
      · exact hC c (List.mem_cons_self c C') ch h''
      · exact (hcw.1 ch h'').2
    · exact ih (fun x hx => hC x (List.mem_cons_of_mem c hx)) l h' ch hch

theorem dropWhile_isEmpty_replicate (e : Nat) :
    (List.replicate e ([] : Str)).dropWhile List.isEmpty = [] := by
  induction e with
  | zero => rfl
  | succ n ih =>
    rw [List.replicate_succ, List.dropWhile_cons]
    simp [ih]

theorem dropTrailingEmpty_append_empty (A : List Str) :
    dropTrailingEmpty (A ++ [[]]) = dropTrailingEmpty A := by
  induction A with
  | nil => rfl
  | cons a A' ih =>
    rw [List.cons_append, dropTrailingEmpty, ih]
    conv_rhs => rw [dropTrailingEmpty]

theorem dropTrailingEmpty_append_replicate (e : Nat) :
    ∀ (A : List Str), dropTrailingEmpty (A ++ List.replicate e []) = dropTrailingEmpty A := by
  induction e with
  | zero =>
    intro A
    rw [List.replicate_zero, List.append_nil]
  | succ n ih =>
    intro A
    rw [List.replicate_succ, show A ++ ([] : Str) :: List.replicate n [] =
      (A ++ [[]]) ++ List.replicate n [] from by simp, ih,
      dropTrailingEmpty_append_empty]

theorem trimEmptyLines_pad (Z : List Str) (e1 e2 : Nat) :
    trimEmptyLines (List.replicate e1 [] ++ Z ++ List.replicate e2 []) =
      trimEmptyLines Z := by
  unfold trimEmptyLines
  rw [List.append_assoc, dropWhile_append_of_all _
    (fun l hl => by rw [List.eq_of_mem_replicate hl]; rfl)]
  rw [dropWhile_append_full]
  by_cases hZ : Z.dropWhile List.isEmpty = []
  · rw [if_pos hZ, hZ, dropWhile_isEmpty_replicate]
  · rw [if_neg hZ, dropTrailingEmpty_append_replicate]

theorem normalizeTree_buildText {C W : List Str} (e1 e2 : Nat)
    (hpad : List.Forall₂ PadOk C W)
    (hC : ∀ l ∈ C, ∀ ch ∈ l, isLineBreak ch = false) :
    normalizeTree (buildText C W e1 e2) =
      joinNl ((trimEmptyLines C).map pyRstrip) := by
  unfold buildText
  have hlb : ∀ l ∈ List.replicate e1 ([] : Str) ++
      List.zipWith (fun c w => c ++ w) C W ++ List.replicate e2 [],
      ∀ ch ∈ l, isLineBreak ch = false := by
    intro l hl ch hch
    rcases List.mem_append.mp hl with h' | h'
    · rcases List.mem_append.mp h' with h'' | h''
      · rw [List.eq_of_mem_replicate h''] at hch
        exact absurd hch (List.not_mem_nil ch)
      · exact padded_linebreak_free hpad hC l h'' ch hch
    · rw [List.eq_of_mem_replicate h'] at hch
      exact absurd hch (List.not_mem_nil ch)
  rw [show List.replicate e1 ([] : Str) ++
      List.zipWith (fun c w => c ++ w) C W ++ List.replicate e2 [] =
      List.replicate e1 [] ++ (List.zipWith (fun c w => c ++ w) C W ++
        List.replicate e2 []) from by simp] at hlb
  rw [show joinNl (List.replicate e1 ([] : Str) ++
      List.zipWith (fun c w => c ++ w) C W ++ List.replicate e2 []) =
      joinNl (List.replicate e1 [] ++ (List.zipWith (fun c w => c ++ w) C W ++
        List.replicate e2 [])) from by simp]
  rw [normalizeTree_joinNl hlb]
  rw [show List.replicate e1 ([] : Str) ++ (List.zipWith (fun c w => c ++ w) C W ++
      List.replicate e2 []) = List.replicate e1 [] ++
      List.zipWith (fun c w => c ++ w) C W ++ List.replicate e2 [] from by simp]
  rw [trimEmptyLines_pad]
  unfold trimEmptyLines
  exact congrArg joinNl
    (forall₂_dropTrailingEmpty (forall₂_dropWhile_isEmpty (padOk_lineRel hpad))).1

/-! ### Parser fold invariants -/

theorem finalizeTest_some_index {sf : Str} {idx : Nat} {sd : Bool}
    {dl docl fl : List Str} {scr : Bool} {t : Html5libDatTest}
    (h : finalizeTest sf idx sd dl docl fl scr = some t) : t.index = idx := by
  unfold finalizeTest at h
  by_cases hsd : sd = false
  · rw [if_pos hsd] at h
    cases h
  · rw [if_neg hsd] at h
    injection h with h'
    rw [← h']

theorem foldl_stepLine_inv (sf : Str) (P : ParseState → Prop)
    (h : ∀ s raw, P s → P (stepLine sf s raw)) :
    ∀ (ls : List Str) (s : ParseState), P s → P (ls.foldl (stepLine sf) s) := by
  intro ls
  induction ls with
  | nil =>
    intro s hs
    exact hs
  | cons a ls' ih =>
    intro s hs
    exact ih _ (h s a hs)

theorem stepLine_tests_cases (sf : Str) (s : ParseState) (raw : Str) :
    ((stepLine sf s raw).tests = s.tests ∧
      (stepLine sf s raw).test_index = s.test_index) ∨
    ((stepLine sf s raw).tests = (flush sf s).tests ∧
      (stepLine sf s raw).test_index = (flush sf s).test_index) := by
  unfold stepLine
  by_cases h1 : startsHash (rstripNl raw) = true
  · rw [if_pos h1]
    by_cases h2 : pyLower (pyStrip ((rstripNl raw).drop 1)) = ofS "script-on"
    · rw [if_pos h2]
      by_cases h3 : s.data_lines ≠ []
      · rw [if_pos h3]
        exact Or.inl ⟨rfl, rfl⟩
      · rw [if_neg h3]
        exact Or.inl ⟨rfl, rfl⟩
    · rw [if_neg h2]
      by_cases h4 : pyLower (pyStrip ((rstripNl raw).drop 1)) = ofS "script-off"
      · rw [if_pos h4]
        by_cases h5 : s.data_lines ≠ []
        · rw [if_pos h5]
          exact Or.inl ⟨rfl, rfl⟩
        · rw [if_neg h5]
          exact Or.inl ⟨rfl, rfl⟩
      · rw [if_neg h4]
        by_cases h6 : pyLower (pyStrip ((rstripNl raw).drop 1)) = ofS "data"
        · rw [if_pos h6]
          by_cases h7 : s.saw_data = true
          · rw [if_pos h7]
            exact Or.inr ⟨rfl, rfl⟩
          · rw [if_neg h7]
            exact Or.inl ⟨rfl, rfl⟩
        · rw [if_neg h6]
          by_cases h8 : pyLower (pyStrip ((rstripNl raw).drop 1)) = ofS "document" ∨
            pyLower (pyStrip ((rstripNl raw).drop 1)) = ofS "document-fragment"
          · rw [if_pos h8]
            exact Or.inl ⟨rfl, rfl⟩
          · rw [if_neg h8]
            exact Or.inl ⟨rfl, rfl⟩
  · rw [if_neg h1]
    by_cases h9 : s.sect = some (ofS "data")
    · rw [if_pos h9]
      exact Or.inl ⟨rfl, rfl⟩
    · rw [if_neg h9]
      by_cases h10 : s.sect = some (ofS "document")
      · rw [if_pos h10]
        exact Or.inl ⟨rfl, rfl⟩
      · rw [if_neg h10]
        by_cases h11 : s.sect = some (ofS "document-fragment")
        · rw [if_pos h11]
          exact Or.inl ⟨rfl, rfl⟩
        · rw [if_neg h11]
          exact Or.inl ⟨rfl, rfl⟩

theorem flush_index_inv (sf : Str) {s : ParseState}
    (h : s.tests.map Html5libDatTest.index = List.range s.tests.length ∧
      s.test_index = s.tests.length) :
    (flush sf s).tests.map Html5libDatTest.index =
        List.range (flush sf s).tests.length ∧
      (flush sf s).test_index = (flush sf s).tests.length := by
  unfold flush
  cases hf : finalizeTest sf s.test_index s.saw_data s.data_lines
      s.document_lines s.fragment_lines s.current_test_scripting_enabled with
  | none => exact h
  | some t =>
    constructor
    · show (s.tests ++ [t]).map Html5libDatTest.index =
        List.range (s.tests ++ [t]).length
      rw [List.map_append, h.1, List.length_append]
      simp only [List.map_cons, List.map_nil, List.length_cons, List.length_nil]
      rw [finalizeTest_some_index hf, h.2, List.range_succ]
    · show s.test_index + 1 = (s.tests ++ [t]).length
      rw [h.2, List.length_append]
      simp

theorem foldl_stepLine_inv_mem (sf : Str) (P : ParseState → Prop) :
    ∀ (ls : List Str), (∀ raw ∈ ls, ∀ s, P s → P (stepLine sf s raw)) →
    ∀ (s : ParseState), P s → P (ls.foldl (stepLine sf) s) := by
  intro ls
  induction ls with
  | nil =>
    intro _ s hs
    exact hs
  | cons a ls' ih =>
    intro h s hs
    exact ih (fun raw hr => h raw (List.mem_cons_of_mem a hr)) _
      (h a (List.mem_cons_self a ls') s hs)

theorem finalizeTest_not_saw (sf : Str) (idx : Nat) (dl docl fl : List Str)
    (scr : Bool) : finalizeTest sf idx false dl docl fl scr = none := by
  unfold finalizeTest
  rw [if_pos rfl]

theorem flush_not_saw {sf : Str} {s : ParseState} (h : s.saw_data = false) :
    (flush sf s).tests = s.tests := by
  unfold flush
  rw [h, finalizeTest_not_saw]

theorem finalizeTest_fc_et {sf : Str} {idx : Nat} {sd : Bool}
    {dl docl fl : List Str} {scr : Bool} {t : Html5libDatTest}
    (h : finalizeTest sf idx sd dl docl fl scr = some t) :
    t.fragment_context.isSome = true → t.expected_tree.isSome = true := by
  unfold finalizeTest at h
  by_cases hsd : sd = false
  · rw [if_pos hsd] at h
    cases h
  · rw [if_neg hsd] at h
    injection h with h'
    rw [← h']
    cases fl with
    | nil =>
      cases docl with
      | nil =>
        intro hc
        cases hc
      | cons a b =>
        intro hc
        cases hc
    | cons f0 frest =>
      intro _
      rfl

theorem stepLine_tests_eq (sf : Str) (s : ParseState) (raw : Str) :
    (stepLine sf s raw).tests = s.tests ∨
    (stepLine sf s raw).tests = (flush sf s).tests := by
  rcases stepLine_tests_cases sf s raw with ⟨h, _⟩ | ⟨h, _⟩
  · exact Or.inl h
  · exact Or.inr h

theorem flush_tests_forall {sf : Str} {s : ParseState}
    {P : Html5libDatTest → Prop}
    (hP : ∀ t, finalizeTest sf s.test_index s.saw_data s.data_lines
      s.document_lines s.fragment_lines s.current_test_scripting_enabled = some t →
      P t)
    (h : ∀ t ∈ s.tests, P t) : ∀ t ∈ (flush sf s).tests, P t := by
  unfold flush
  cases hf : finalizeTest sf s.test_index s.saw_data s.data_lines
      s.document_lines s.fragment_lines s.current_test_scripting_enabled with
  | none => exact h
  | some t0 =>
    intro t ht
    rcases List.mem_append.mp ht with h' | h'
    · exact h t h'
    · rcases List.mem_cons.mp h' with h'' | h''
      · exact h'' ▸ hP t0 hf
      · exact absurd h'' (List.not_mem_nil t)

/-- Any per-test property guaranteed by `_finalize_test` holds for every
test a parse emits. -/
theorem parse_tests_forall (P : Html5libDatTest → Prop)
    (hP : ∀ sf idx sd dl docl fl scr t,
      finalizeTest sf idx sd dl docl fl scr = some t → P t) :
    ∀ (text sf : Str), ∀ t ∈ parseHtml5libDatText text sf, P t := by
  intro text sf
  unfold parseHtml5libDatText
  have hinv := foldl_stepLine_inv sf (fun s => ∀ t ∈ s.tests, P t)
    (fun s raw hs => by
      rcases stepLine_tests_eq sf s raw with h | h
      · rw [h]
        exact hs
      · rw [h]
        exact flush_tests_forall (fun t ht => hP _ _ _ _ _ _ _ t ht) hs)
    (splitlines text) initState (by
      intro t ht
      exact absurd ht (List.not_mem_nil t))
  exact flush_tests_forall (fun t ht => hP _ _ _ _ _ _ _ t ht) hinv

theorem mem_splitlines_stripNl_joinNl {ls : List Str}
    (hlb : ∀ l ∈ ls, ∀ c ∈ l, isLineBreak c = false) :
    ∀ x ∈ splitlines (stripNl (joinNl ls)), x ∈ ls ∨ x = [] := by
  rw [stripNl_joinNl hlb]
  intro x hx
  rcases mem_splitlines_joinNl (fun l hl => hlb l (mem_trimEmptyLines hl)) x hx
    with h | h
  · exact Or.inl (mem_trimEmptyLines h)
  · exact Or.inr h

theorem finalizeTest_data {sf : Str} {idx : Nat} {sd : Bool}
    {dl docl fl : List Str} {scr : Bool} {t : Html5libDatTest}
    (h : finalizeTest sf idx sd dl docl fl scr = some t) : t.data = joinNl dl := by
  unfold finalizeTest at h
  by_cases hsd : sd = false
  · rw [if_pos hsd] at h
    cases h
  · rw [if_neg hsd] at h
    injection h with h'
    rw [← h']

theorem finalizeTest_expected_tree {sf : Str} {idx : Nat} {sd : Bool}
    {dl docl fl : List Str} {scr : Bool} {t : Html5libDatTest}
    (h : finalizeTest sf idx sd dl docl fl scr = some t) :
    t.expected_tree = none ∨ t.expected_tree = some [] ∨
    t.expected_tree = some (stripNl (joinNl docl)) ∨
    (fl ≠ [] ∧ t.expected_tree = some (stripNl (joinNl fl.tail))) := by
  unfold finalizeTest at h
  by_cases hsd : sd = false
  · rw [if_pos hsd] at h
    cases h
  · rw [if_neg hsd] at h
    injection h with h'
    rw [← h']
    cases fl with
    | nil =>
      cases docl with
      | nil => exact Or.inl rfl
      | cons a b => exact Or.inr (Or.inr (Or.inl rfl))
    | cons f0 frest =>
      cases docl with
      | nil =>
        cases frest with
        | nil => exact Or.inr (Or.inl rfl)
        | cons x xs => exact Or.inr (Or.inr (Or.inr ⟨by simp, rfl⟩))
      | cons a b => exact Or.inr (Or.inr (Or.inl rfl))

theorem finalizeTest_hash_free {sf : Str} {idx : Nat} {sd : Bool}
    {dl docl fl : List Str} {scr : Bool} {t : Html5libDatTest}
    (h : finalizeTest sf idx sd dl docl fl scr = some t)
    (hdl : ∀ l ∈ dl, lineOk l) (hdocl : ∀ l ∈ docl, lineOk l)
    (hfl : ∀ l ∈ fl, lineOk l) : testHashFree t := by
  constructor
  · rw [finalizeTest_data h]
    intro l hl
    rcases mem_splitlines_joinNl (fun x hx => (hdl x hx).2) l hl with h' | h'
    · exact (hdl l h').1
    · rw [h']
      rfl
  · intro e he
    rcases finalizeTest_expected_tree h with h1 | h2 | h3 | ⟨hne, h4⟩
    · rw [h1] at he
      cases he
    · rw [h2] at he
      injection he with he'
      rw [← he']
      intro l hl
      exact absurd hl (List.not_mem_nil l)
    · rw [h3] at he
      injection he with he'
      rw [← he']
      intro l hl
      rcases mem_splitlines_stripNl_joinNl (fun x hx => (hdocl x hx).2) l hl
        with h' | h'
      · exact (hdocl l h').1
      · rw [h']
        rfl
    · rw [h4] at he
      injection he with he'
      rw [← he']
      intro l hl
      have hfl' : ∀ x ∈ fl.tail, lineOk x := by
        intro x hx
        exact hfl x (List.mem_of_mem_tail hx)
      rcases mem_splitlines_stripNl_joinNl (fun x hx => (hfl' x hx).2) l hl
        with h' | h'
      · exact (hfl' l h').1
      · rw [h']
        rfl

theorem flush_hash_free {sf : Str} {s : ParseState} (hQ : stateHashFree s) :
    stateHashFree (flush sf s) := by
  unfold flush
  cases hf : finalizeTest sf s.test_index s.saw_data s.data_lines
      s.document_lines s.fragment_lines s.current_test_scripting_enabled with
  | none =>
    refine ⟨?_, ?_, ?_, hQ.2.2.2⟩ <;>
      exact fun l hl => absurd hl (List.not_mem_nil l)
  | some t0 =>
    refine ⟨?_, ?_, ?_, ?_⟩
    · exact fun l hl => absurd hl (List.not_mem_nil l)
    · exact fun l hl => absurd hl (List.not_mem_nil l)
    · exact fun l hl => absurd hl (List.not_mem_nil l)
    · intro t ht
      rcases List.mem_append.mp ht with h' | h'
      · exact hQ.2.2.2 t h'
      · rcases List.mem_cons.mp h' with h'' | h''
        · exact h'' ▸ finalizeTest_hash_free hf hQ.1 hQ.2.1 hQ.2.2.1
        · exact absurd h'' (List.not_mem_nil t)

theorem stepLine_hash_free (sf : Str) (s : ParseState) (raw : Str)
    (hraw : ∀ c ∈ raw, isLineBreak c = false) (hQ : stateHashFree s) :
    stateHashFree (stepLine sf s raw) := by
  have hline : ∀ c ∈ rstripNl raw, isLineBreak c = false :=
    fun c hc => hraw c (mem_dropTrailing hc)
  unfold stepLine
  by_cases h1 : startsHash (rstripNl raw) = true
  · rw [if_pos h1]
    by_cases h2 : pyLower (pyStrip ((rstripNl raw).drop 1)) = ofS "script-on"
    · rw [if_pos h2]
      by_cases h3 : s.data_lines ≠ []
      · rw [if_pos h3]
        exact hQ
      · rw [if_neg h3]
        exact hQ
    · rw [if_neg h2]
      by_cases h4 : pyLower (pyStrip ((rstripNl raw).drop 1)) = ofS "script-off"
      · rw [if_pos h4]
        by_cases h5 : s.data_lines ≠ []
        · rw [if_pos h5]
          exact hQ
        · rw [if_neg h5]
          exact hQ
      · rw [if_neg h4]
        by_cases h6 : pyLower (pyStrip ((rstripNl raw).drop 1)) = ofS "data"
        · rw [if_pos h6]
          by_cases h7 : s.saw_data = true
          · rw [if_pos h7]
            exact flush_hash_free hQ
          · rw [if_neg h7]
            exact hQ
        · rw [if_neg h6]
          by_cases h8 : pyLower (pyStrip ((rstripNl raw).drop 1)) = ofS "document" ∨
            pyLower (pyStrip ((rstripNl raw).drop 1)) = ofS "document-fragment"
          · rw [if_pos h8]
            exact hQ
          · rw [if_neg h8]
            exact hQ
  · rw [if_neg h1]
    have hok : lineOk (rstripNl raw) := by
      constructor
      · cases hsh : startsHash (rstripNl raw)
        · rfl
        · exact absurd hsh h1
      · exact hline
    have happend : ∀ (A : List Str), (∀ l ∈ A, lineOk l) →
        ∀ l ∈ A ++ [rstripNl raw], lineOk l := by
      intro A hA l hl
      rcases List.mem_append.mp hl with h' | h'
      · exact hA l h'
      · rcases List.mem_cons.mp h' with h'' | h''
        · exact h'' ▸ hok
        · exact absurd h'' (List.not_mem_nil l)
    by_cases h9 : s.sect = some (ofS "data")
    · rw [if_pos h9]
      exact ⟨happend _ hQ.1, hQ.2.1, hQ.2.2.1, hQ.2.2.2⟩
    · rw [if_neg h9]
      by_cases h10 : s.sect = some (ofS "document")
      · rw [if_pos h10]
        exact ⟨hQ.1, happend _ hQ.2.1, hQ.2.2.1, hQ.2.2.2⟩
      · rw [if_neg h10]
        by_cases h11 : s.sect = some (ofS "document-fragment")
        · rw [if_pos h11]
          exact ⟨hQ.1, hQ.2.1, happend _ hQ.2.2.1, hQ.2.2.2⟩
        · rw [if_neg h11]
          exact hQ

theorem rstripNl_eq_self {l : Str} (h : ∀ c ∈ l, isLineBreak c = false) :
    rstripNl l = l :=
  dropTrailing_eq_self_of_all (fun c hc => isNl_eq_false (h c hc))

theorem stepLine_content_data {sf : Str} {s : ParseState} {raw : Str}
    (h1 : startsHash (rstripNl raw) = false) (h2 : s.sect = some (ofS "data")) :
    stepLine sf s raw = { s with data_lines := s.data_lines ++ [rstripNl raw] } := by
  unfold stepLine
  rw [if_neg (by simp [h1]), if_pos h2]

/-! ## Claim theorems -/

/-- C10: every line starting with a hash character is consumed as a section
marker, so no line of a parsed case's `data` and no line of its
`expected_tree` starts with a hash. -/
theorem C10_no_hash_lines (text sf : Str) :
    ∀ t ∈ parseHtml5libDatText text sf,
      (∀ l ∈ splitlines t.data, startsHash l = false) ∧
      (∀ e, t.expected_tree = some e → ∀ l ∈ splitlines e, startsHash l = false) := by
  intro t ht
  unfold parseHtml5libDatText at ht
  have hinit : stateHashFree initState :=
    ⟨fun l hl => absurd hl (List.not_mem_nil l),
     fun l hl => absurd hl (List.not_mem_nil l),
     fun l hl => absurd hl (List.not_mem_nil l),
     fun t ht => absurd ht (List.not_mem_nil t)⟩
  have hinv := foldl_stepLine_inv_mem sf stateHashFree (splitlines text)
    (fun raw hr s hs => stepLine_hash_free sf s raw
      (mem_splitlines_no_linebreak text raw hr) hs)
    initState hinit
  exact (flush_hash_free hinv).2.2.2 t ht

/-- C10 witness: the single data line of a concrete parsed case does not
start with a hash, via `C10_no_hash_lines`. -/
theorem C10_no_hash_lines_witness : startsHash (ofS "x") = false :=
  (C10_no_hash_lines (ofS "#data\nx") (ofS "f")
    ⟨ofS "f", 0, ofS "x", none, none, false⟩ (by decide)).1 (ofS "x") (by decide)

/-- C8: a `#data` marker immediately followed by another `#data` yields a
case whose `data` is the empty string (not a skipped case), and a fixture
containing no `#data` marker on any line yields zero cases. -/
theorem C8_empty_data_and_no_data :
    (parseHtml5libDatText (ofS "#data\n#data\nx") (ofS "f")).map
      (fun t => t.data) = [ofS "", ofS "x"] ∧
    (∀ (text sf : Str), (∀ raw ∈ splitlines text, isDataMarkerLine raw = false) →
      parseHtml5libDatText text sf = []) := by
  constructor
  · decide
  · intro text sf hmark
    unfold parseHtml5libDatText
    have hinv := foldl_stepLine_inv_mem sf
      (fun s => s.saw_data = false ∧ s.tests = []) (splitlines text)
      (fun raw hr s hs => by
        have hm : isDataMarkerLine raw = false := hmark raw hr
        unfold stepLine
        by_cases h1 : startsHash (rstripNl raw) = true
        · rw [if_pos h1]
          by_cases h2 : pyLower (pyStrip ((rstripNl raw).drop 1)) = ofS "script-on"
          · rw [if_pos h2]
            by_cases h3 : s.data_lines ≠ []
            · rw [if_pos h3]
              exact hs
            · rw [if_neg h3]
              exact hs
          · rw [if_neg h2]
            by_cases h4 : pyLower (pyStrip ((rstripNl raw).drop 1)) = ofS "script-off"
            · rw [if_pos h4]
              by_cases h5 : s.data_lines ≠ []
              · rw [if_pos h5]
                exact hs
              · rw [if_neg h5]
                exact hs
            · rw [if_neg h4]
              by_cases h6 : pyLower (pyStrip ((rstripNl raw).drop 1)) = ofS "data"
              · exfalso
                have hm' : isDataMarkerLine raw = true := by
                  unfold isDataMarkerLine
                  rw [h1, h6]
                  simp
                rw [hm] at hm'
                cases hm'
              · rw [if_neg h6]
                by_cases h8 : pyLower (pyStrip ((rstripNl raw).drop 1)) = ofS "document" ∨
                  pyLower (pyStrip ((rstripNl raw).drop 1)) = ofS "document-fragment"
                · rw [if_pos h8]
                  exact hs
                · rw [if_neg h8]
                  exact hs
        · rw [if_neg h1]
          by_cases h9 : s.sect = some (ofS "data")
          · rw [if_pos h9]
            exact hs
          · rw [if_neg h9]
            by_cases h10 : s.sect = some (ofS "document")
            · rw [if_pos h10]
              exact hs
            · rw [if_neg h10]
              by_cases h11 : s.sect = some (ofS "document-fragment")
              · rw [if_pos h11]
                exact hs
              · rw [if_neg h11]
                exact hs)
      initState ⟨rfl, rfl⟩
    rw [flush_not_saw hinv.1]
    exact hinv.2

/-- C8 witness: a concrete fixture with content lines and a `#document`
marker but no `#data` marker parses to zero cases. -/
theorem C8_empty_data_and_no_data_witness :
    parseHtml5libDatText (ofS "hello\n#document\n| x") (ofS "f") = [] :=
  C8_empty_data_and_no_data.2 (ofS "hello\n#document\n| x") (ofS "f") (by decide)

/-- C1 counterexample: in `#data`, `#script-on`, `#data`, `x`, the marker
appears while a case is in progress (after its `#data`) but its data
section is still empty, so the code sets the DEFAULT flag instead of
overriding the current case: the parse yields scripting flags
`[false, true]`, not the claimed `[true, false]`. -/
theorem C1_marker_after_empty_data_sets_default :
    (parseHtml5libDatText (ofS "#data\n#script-on\n#data\nx") (ofS "f")).map
      (fun t => t.scripting_enabled) = [false, true] ∧
    ([false, true] : List Bool) ≠ [true, false] := by
  refine ⟨by decide, by decide⟩

/-- C1 (amended): a `#script-on` or `#script-off` marker sets the default
flag whenever the current data buffer is empty — before any case (parts 1
and 4) and also right after a `#data` with no buffered data line yet, in
which case the current case keeps its flag and only later cases see the
new default (parts 3 and 6); it overrides only the current case, leaving
the default unchanged, exactly when at least one data line is buffered
(parts 2 and 5).  The `#script-off` fixtures open with a `#script-on`
marker so that turning the flag off is observable. -/
theorem C1_script_flag_behavior (sf d : Str) (hne : d ≠ [])
    (hh : startsHash d = false) (hlb : ∀ c ∈ d, isLineBreak c = false) :
    ((parseHtml5libDatText (joinNl [ofS "#script-on", ofS "#data", d]) sf).map
      (fun t => t.scripting_enabled) = [true]) ∧
    ((parseHtml5libDatText (joinNl [ofS "#data", d, ofS "#script-on",
        ofS "#data", d]) sf).map (fun t => t.scripting_enabled) = [true, false]) ∧
    ((parseHtml5libDatText (joinNl [ofS "#data", ofS "#script-on",
        ofS "#data", d]) sf).map (fun t => t.scripting_enabled) = [false, true]) ∧
    ((parseHtml5libDatText (joinNl [ofS "#script-on", ofS "#script-off",
        ofS "#data", d]) sf).map (fun t => t.scripting_enabled) = [false]) ∧
    ((parseHtml5libDatText (joinNl [ofS "#script-on", ofS "#data", d,
        ofS "#script-off", ofS "#data", d]) sf).map
      (fun t => t.scripting_enabled) = [false, true]) ∧
    ((parseHtml5libDatText (joinNl [ofS "#script-on", ofS "#data",
        ofS "#script-off", ofS "#data", d]) sf).map
      (fun t => t.scripting_enabled) = [true, false]) := by
  have hrd : rstripNl d = d := rstripNl_eq_self hlb
  have hmData : ∀ c ∈ ofS "#data", isLineBreak c = false := by decide
  have hmOn : ∀ c ∈ ofS "#script-on", isLineBreak c = false := by decide
  have hmOff : ∀ c ∈ ofS "#script-off", isLineBreak c = false := by decide
  refine ⟨?_, ?_, ?_, ?_, ?_, ?_⟩
  · have hsplit : splitlines (joinNl [ofS "#script-on", ofS "#data", d]) =
        [ofS "#script-on", ofS "#data", d] := by
      refine splitlines_joinNl ?_ ?_
      · intro l hl
        simp only [List.mem_cons, List.not_mem_nil, or_false] at hl
        rcases hl with rfl | rfl | rfl
        · exact hmOn
        · exact hmData
        · exact hlb
      · rw [show ([ofS "#script-on", ofS "#data", d] : List Str).getLast? =
          some d from rfl]
        intro he
        exact hne (Option.some.inj he)
    unfold parseHtml5libDatText
    rw [hsplit]
    simp only [List.foldl_cons, List.foldl_nil]
    rw [show stepLine sf initState (ofS "#script-on") =
      ⟨[], none, false, [], [], [], 0, true, false⟩ from rfl]
    rw [show stepLine sf (⟨[], none, false, [], [], [], 0, true, false⟩ : ParseState)
      (ofS "#data") = ⟨[], some (ofS "data"), true, [], [], [], 0, true, true⟩ from rfl]
    rw [stepLine_content_data (by rw [hrd]; exact hh) rfl, hrd]
    rfl
  · have hsplit : splitlines (joinNl [ofS "#data", d, ofS "#script-on",
        ofS "#data", d]) = [ofS "#data", d, ofS "#script-on", ofS "#data", d] := by
      refine splitlines_joinNl ?_ ?_
      · intro l hl
        simp only [List.mem_cons, List.not_mem_nil, or_false] at hl
        rcases hl with rfl | rfl | rfl | rfl | rfl
        · exact hmData
        · exact hlb
        · exact hmOn
        · exact hmData
        · exact hlb
      · rw [show ([ofS "#data", d, ofS "#script-on", ofS "#data", d] :
          List Str).getLast? = some d from rfl]
        intro he
        exact hne (Option.some.inj he)
    unfold parseHtml5libDatText
    rw [hsplit]
    simp only [List.foldl_cons, List.foldl_nil]
    rw [show stepLine sf initState (ofS "#data") =
      ⟨[], some (ofS "data"), true, [], [], [], 0, false, false⟩ from rfl]
    rw [show stepLine sf (⟨[], some (ofS "data"), true, [], [], [], 0, false,
        false⟩ : ParseState) d =
      ⟨[], some (ofS "data"), true, [d], [], [], 0, false, false⟩ from by
        rw [stepLine_content_data (by rw [hrd]; exact hh) rfl, hrd]
        rfl]
    rw [show stepLine sf (⟨[], some (ofS "data"), true, [d], [], [], 0, false,
      false⟩ : ParseState) (ofS "#script-on") =
      ⟨[], none, true, [d], [], [], 0, false, true⟩ from rfl]
    rw [show stepLine sf (⟨[], none, true, [d], [], [], 0, false, true⟩ :
      ParseState) (ofS "#data") =
      ⟨[⟨sf, 0, d, none, none, true⟩], some (ofS "data"), true, [], [], [], 1,
        false, false⟩ from rfl]
    rw [show stepLine sf (⟨[⟨sf, 0, d, none, none, true⟩], some (ofS "data"),
        true, [], [], [], 1, false, false⟩ : ParseState) d =
      ⟨[⟨sf, 0, d, none, none, true⟩], some (ofS "data"), true, [d], [], [], 1,
        false, false⟩ from by
        rw [stepLine_content_data (by rw [hrd]; exact hh) rfl, hrd]
        rfl]
    rfl
  · have hsplit : splitlines (joinNl [ofS "#data", ofS "#script-on",
        ofS "#data", d]) = [ofS "#data", ofS "#script-on", ofS "#data", d] := by
      refine splitlines_joinNl ?_ ?_
      · intro l hl
        simp only [List.mem_cons, List.not_mem_nil, or_false] at hl
        rcases hl with rfl | rfl | rfl | rfl
        · exact hmData
        · exact hmOn
        · exact hmData
        · exact hlb
      · rw [show ([ofS "#data", ofS "#script-on", ofS "#data", d] :
          List Str).getLast? = some d from rfl]
        intro he
        exact hne (Option.some.inj he)
    unfold parseHtml5libDatText
    rw [hsplit]
    simp only [List.foldl_cons, List.foldl_nil]
    rw [show stepLine sf initState (ofS "#data") =
      ⟨[], some (ofS "data"), true, [], [], [], 0, false, false⟩ from rfl]
    rw [show stepLine sf (⟨[], some (ofS "data"), true, [], [], [], 0, false,
      false⟩ : ParseState) (ofS "#script-on") =
      ⟨[], none, true, [], [], [], 0, true, false⟩ from rfl]
    rw [show stepLine sf (⟨[], none, true, [], [], [], 0, true, false⟩ :
      ParseState) (ofS "#data") =
      ⟨[⟨sf, 0, [], none, none, false⟩], some (ofS "data"), true, [], [], [], 1,
        true, true⟩ from rfl]
    rw [stepLine_content_data (by rw [hrd]; exact hh) rfl, hrd]
    rfl
  · have hsplit : splitlines (joinNl [ofS "#script-on", ofS "#script-off",
        ofS "#data", d]) = [ofS "#script-on", ofS "#script-off", ofS "#data", d] := by
      refine splitlines_joinNl ?_ ?_
      · intro l hl
        simp only [List.mem_cons, List.not_mem_nil, or_false] at hl
        rcases hl with rfl | rfl | rfl | rfl
        · exact hmOn
        · exact hmOff
        · exact hmData
        · exact hlb
      · rw [show ([ofS "#script-on", ofS "#script-off", ofS "#data", d] :
          List Str).getLast? = some d from rfl]
        intro he
        exact hne (Option.some.inj he)
    unfold parseHtml5libDatText
    rw [hsplit]
    simp only [List.foldl_cons, List.foldl_nil]
    rw [show stepLine sf initState (ofS "#script-on") =
      ⟨[], none, false, [], [], [], 0, true, false⟩ from rfl]
    rw [show stepLine sf (⟨[], none, false, [], [], [], 0, true, false⟩ :
      ParseState) (ofS "#script-off") =
      ⟨[], none, false, [], [], [], 0, false, false⟩ from rfl]
    rw [show stepLine sf (⟨[], none, false, [], [], [], 0, false, false⟩ :
      ParseState) (ofS "#data") =
      ⟨[], some (ofS "data"), true, [], [], [], 0, false, false⟩ from rfl]
    rw [stepLine_content_data (by rw [hrd]; exact hh) rfl, hrd]
    rfl
  · have hsplit : splitlines (joinNl [ofS "#script-on", ofS "#data", d,
        ofS "#script-off", ofS "#data", d]) =
        [ofS "#script-on", ofS "#data", d, ofS "#script-off", ofS "#data", d] := by
      refine splitlines_joinNl ?_ ?_
      · intro l hl
        simp only [List.mem_cons, List.not_mem_nil, or_false] at hl
        rcases hl with rfl | rfl | rfl | rfl | rfl | rfl
        · exact hmOn
        · exact hmData
        · exact hlb
        · exact hmOff
        · exact hmData
        · exact hlb
      · rw [show ([ofS "#script-on", ofS "#data", d, ofS "#script-off",
          ofS "#data", d] : List Str).getLast? = some d from rfl]
        intro he
        exact hne (Option.some.inj he)
    unfold parseHtml5libDatText
    rw [hsplit]
    simp only [List.foldl_cons, List.foldl_nil]
    rw [show stepLine sf initState (ofS "#script-on") =
      ⟨[], none, false, [], [], [], 0, true, false⟩ from rfl]
    rw [show stepLine sf (⟨[], none, false, [], [], [], 0, true, false⟩ :
      ParseState) (ofS "#data") =
      ⟨[], some (ofS "data"), true, [], [], [], 0, true, true⟩ from rfl]
    rw [show stepLine sf (⟨[], some (ofS "data"), true, [], [], [], 0, true,
        true⟩ : ParseState) d =
      ⟨[], some (ofS "data"), true, [d], [], [], 0, true, true⟩ from by
        rw [stepLine_content_data (by rw [hrd]; exact hh) rfl, hrd]
        rfl]
    rw [show stepLine sf (⟨[], some (ofS "data"), true, [d], [], [], 0, true,
      true⟩ : ParseState) (ofS "#script-off") =
      ⟨[], none, true, [d], [], [], 0, true, false⟩ from rfl]
    rw [show stepLine sf (⟨[], none, true, [d], [], [], 0, true, false⟩ :
      ParseState) (ofS "#data") =
      ⟨[⟨sf, 0, d, none, none, false⟩], some (ofS "data"), true, [], [], [], 1,
        true, true⟩ from rfl]
    rw [show stepLine sf (⟨[⟨sf, 0, d, none, none, false⟩], some (ofS "data"),
        true, [], [], [], 1, true, true⟩ : ParseState) d =
      ⟨[⟨sf, 0, d, none, none, false⟩], some (ofS "data"), true, [d], [], [], 1,
        true, true⟩ from by
        rw [stepLine_content_data (by rw [hrd]; exact hh) rfl, hrd]
        rfl]
    rfl
  · have hsplit : splitlines (joinNl [ofS "#script-on", ofS "#data",
        ofS "#script-off", ofS "#data", d]) =
        [ofS "#script-on", ofS "#data", ofS "#script-off", ofS "#data", d] := by
      refine splitlines_joinNl ?_ ?_
      · intro l hl
        simp only [List.mem_cons, List.not_mem_nil, or_false] at hl
        rcases hl with rfl | rfl | rfl | rfl | rfl
        · exact hmOn
        · exact hmData
        · exact hmOff
        · exact hmData
        · exact hlb
      · rw [show ([ofS "#script-on", ofS "#data", ofS "#script-off",
          ofS "#data", d] : List Str).getLast? = some d from rfl]
        intro he
        exact hne (Option.some.inj he)
    unfold parseHtml5libDatText
    rw [hsplit]
    simp only [List.foldl_cons, List.foldl_nil]
    rw [show stepLine sf initState (ofS "#script-on") =
      ⟨[], none, false, [], [], [], 0, true, false⟩ from rfl]
    rw [show stepLine sf (⟨[], none, false, [], [], [], 0, true, false⟩ :
      ParseState) (ofS "#data") =
      ⟨[], some (ofS "data"), true, [], [], [], 0, true, true⟩ from rfl]
    rw [show stepLine sf (⟨[], some (ofS "data"), true, [], [], [], 0, true,
      true⟩ : ParseState) (ofS "#script-off") =
      ⟨[], none, true, [], [], [], 0, false, true⟩ from rfl]
    rw [show stepLine sf (⟨[], none, true, [], [], [], 0, false, true⟩ :
      ParseState) (ofS "#data") =
      ⟨[⟨sf, 0, [], none, none, true⟩], some (ofS "data"), true, [], [], [], 1,
        false, false⟩ from rfl]
    rw [stepLine_content_data (by rw [hrd]; exact hh) rfl, hrd]
    rfl

/-- C1 witness: the amended behavior at the concrete data line `x`. -/
theorem C1_script_flag_behavior_witness :
    ((parseHtml5libDatText (joinNl [ofS "#script-on", ofS "#data", ofS "x"])
      (ofS "f")).map (fun t => t.scripting_enabled) = [true]) ∧
    ((parseHtml5libDatText (joinNl [ofS "#data", ofS "x", ofS "#script-on",
        ofS "#data", ofS "x"]) (ofS "f")).map
      (fun t => t.scripting_enabled) = [true, false]) ∧
    ((parseHtml5libDatText (joinNl [ofS "#data", ofS "#script-on",
        ofS "#data", ofS "x"]) (ofS "f")).map
      (fun t => t.scripting_enabled) = [false, true]) ∧
    ((parseHtml5libDatText (joinNl [ofS "#script-on", ofS "#script-off",
        ofS "#data", ofS "x"]) (ofS "f")).map
      (fun t => t.scripting_enabled) = [false]) ∧
    ((parseHtml5libDatText (joinNl [ofS "#script-on", ofS "#data", ofS "x",
        ofS "#script-off", ofS "#data", ofS "x"]) (ofS "f")).map
      (fun t => t.scripting_enabled) = [false, true]) ∧
    ((parseHtml5libDatText (joinNl [ofS "#script-on", ofS "#data",
        ofS "#script-off", ofS "#data", ofS "x"]) (ofS "f")).map
      (fun t => t.scripting_enabled) = [true, false]) :=
  C1_script_flag_behavior (ofS "f") (ofS "x") (by decide) (by decide) (by decide)

/-- C2 counterexample: a `#document` buffer beginning with an empty line
yields an expected tree whose leading empty line is REMOVED — `strip` with
a newline argument trims both ends — whereas the claim's trailing-only
trimming would keep it. -/
theorem C2_leading_newlines_trimmed :
    (parseHtml5libDatText (ofS "#data\na\n#document\n\n| x") (ofS "f")).map
      (fun t => t.expected_tree) = [some (ofS "| x")] ∧
    claimC2ExpectedTrailingOnly [ofS "", ofS "| x"] [] = some (ofS "\n| x") ∧
    (some (ofS "| x") : Option Str) ≠ some (ofS "\n| x") := by
  refine ⟨by decide, by decide, by decide⟩

/-- C2 (amended): for every finalized case, the expected tree follows the
claimed selection between the `document` and `document-fragment` buffers,
but with BOTH leading and trailing newlines trimmed from the newline-joined
result (Python `strip`), not only trailing ones. -/
theorem C2_expected_tree_formula (sf : Str) (idx : Nat)
    (dl docl fl : List Str) (scr : Bool) :
    Option.map Html5libDatTest.expected_tree
      (finalizeTest sf idx true dl docl fl scr) =
      some (claimC2ExpectedStripBoth docl fl) := by
  unfold finalizeTest claimC2ExpectedStripBoth
  rw [if_neg (by simp)]
  cases fl with
  | nil =>
    cases docl with
    | nil => rfl
    | cons a b => rfl
  | cons f0 frest => rfl

/-- C3 counterexample: no fixture text can produce a case with
`fragment_context` present and `expected_tree` absent — whenever the
fragment buffer is non-empty, `_finalize_test` always assigns a string
(possibly empty) to `expected_tree`, so the claimed independence fails in
this direction. -/
theorem C3_fc_without_et_impossible :
    ¬ ∃ (text sf : Str) (t : Html5libDatTest),
      t ∈ parseHtml5libDatText text sf ∧
      t.fragment_context.isSome = true ∧ t.expected_tree = none := by
  intro ⟨text, sf, t, hmem, hfc, het⟩
  have h := parse_tests_forall
    (fun t => t.fragment_context.isSome = true → t.expected_tree.isSome = true)
    (fun sf idx sd dl docl fl scr t ht => finalizeTest_fc_et ht)
    text sf t hmem hfc
  rw [het] at h
  cases h

/-- C3 (amended): a case can have `expected_tree` without
`fragment_context`, but not the converse: `fragment_context` present forces
`expected_tree` present (possibly the empty string). -/
theorem C3_et_fc_dependence :
    (∃ (text sf : Str) (t : Html5libDatTest),
      t ∈ parseHtml5libDatText text sf ∧
      t.expected_tree.isSome = true ∧ t.fragment_context = none) ∧
    (∀ (text sf : Str), ∀ t ∈ parseHtml5libDatText text sf,
      t.fragment_context.isSome = true → t.expected_tree.isSome = true) := by
  constructor
  · exact ⟨ofS "#data\na\n#document\n| x", ofS "f",
      ⟨ofS "f", 0, ofS "a", some (ofS "| x"), none, false⟩,
      by decide, by decide, by decide⟩
  · exact parse_tests_forall
      (fun t => t.fragment_context.isSome = true → t.expected_tree.isSome = true)
      (fun sf idx sd dl docl fl scr t ht => finalizeTest_fc_et ht)

/-- C3 witness: a concrete fragment case produced by the parser, whose
`expected_tree` is forced present by `C3_et_fc_dependence`. -/
theorem C3_et_fc_dependence_witness :
    (Html5libDatTest.expected_tree
      ⟨ofS "f", 0, ofS "a", some (ofS "| y"), some (ofS "div"), false⟩).isSome
      = true :=
  C3_et_fc_dependence.2 (ofS "#data\na\n#document-fragment\ndiv\n| y") (ofS "f")
    ⟨ofS "f", 0, ofS "a", some (ofS "| y"), some (ofS "div"), false⟩
    (by decide) (by decide)

/-- C4 counterexample: `_normalize_expected_tree` is NOT idempotent.  The
input holding a whitespace-only first line followed by an `a` normalizes to
a text with a leading newline, which a second pass strips away. -/
theorem C4_normalize_not_idempotent :
    normalizeTree (normalizeTree (ofS " \na")) ≠ normalizeTree (ofS " \na") ∧
    normalizeTree (ofS " \na") = ofS "\na" ∧
    normalizeTree (normalizeTree (ofS " \na")) = ofS "a" := by
  refine ⟨?_, by decide, by decide⟩
  decide

/-- C4 (amended): a double application of `_normalize_expected_tree` is a
fixed point — `normalize (normalize (normalize x)) = normalize (normalize x)`
for every input — though a single application is not idempotent. -/
theorem C4_normalize_double_application_fixed (s : Str) :
    normalizeTree (normalizeTree (normalizeTree s)) =
      normalizeTree (normalizeTree s) := by
  have h2 : normalizeTree (normalizeTree s) =
      joinNl (trimEmptyLines ((splitlines (stripNl s)).map pyRstrip)) := by
    show normalizeTree (joinNl ((splitlines (stripNl s)).map pyRstrip)) = _
    rw [normalizeTree_joinNl (normalized_lines_linebreak_free s),
      map_pyRstrip_eq_self
        (fun l hl => normalized_lines_fixed s l (mem_trimEmptyLines hl))]
  rw [h2, normalizeTree_joinNl
    (fun l hl => normalized_lines_linebreak_free s l (mem_trimEmptyLines hl)),
    trimEmptyLines_idem,
    map_pyRstrip_eq_self
      (fun l hl => normalized_lines_fixed s l (mem_trimEmptyLines hl))]

/-- C6 counterexample: decoding CAN raise.  The bytes `EF BB BF FE` carry a
UTF-8 byte-order mark, so they are decoded as `utf-8-sig`; the remaining
`FE` byte is invalid UTF-8, the fallback is not consulted on this path, and
`bytes.decode` raises (modelled as `none`). -/
theorem C6_decode_can_raise :
    decodeDatBytes [0xef, 0xbb, 0xbf, 0xfe] = none := by decide

/-- C6 (amended): on inputs that carry no byte-order mark, decoding never
fails: strict UTF-8 is attempted, and on failure the latin-1 fallback maps
each byte to the code point of the same value (so a raw `0xFE` byte becomes
U+00FE). -/
theorem C6_decode_no_bom_total (data : List Nat)
    (h : ¬ (BOM_UTF8.isPrefixOf data ∨ BOM_UTF16_LE.isPrefixOf data ∨
      BOM_UTF16_BE.isPrefixOf data)) :
    (decodeDatBytes data).isSome = true ∧
    (utf8DecodeStrict data = none → decodeDatBytes data = some data) := by
  push_neg at h
  obtain ⟨h8, hle, hbe⟩ := h
  unfold decodeDatBytes
  rw [if_neg h8, if_neg (by simp [hle, hbe])]
  cases hu : utf8DecodeStrict data with
  | none => exact ⟨rfl, fun _ => rfl⟩
  | some t => exact ⟨rfl, fun hc => Option.noConfusion hc⟩

/-- C6 witness: the two-byte sequence `61 FE` has no byte-order mark, is not
valid UTF-8, decodes without raising, and its `FE` byte becomes the single
code point U+00FE. -/
theorem C6_decode_no_bom_total_witness :
    (decodeDatBytes [0x61, 0xfe]).isSome = true ∧
    (utf8DecodeStrict [0x61, 0xfe] = none →
      decodeDatBytes [0x61, 0xfe] = some [0x61, 0xfe]) :=
  C6_decode_no_bom_total [0x61, 0xfe] (by decide)

/-- C7: every parse yields cases whose `index` values are exactly `0..n-1`
in appearance order — the map of `index` over the parsed list is
`List.range` of its length. -/
theorem C7_indices_are_range (text sf : Str) :
    (parseHtml5libDatText text sf).map Html5libDatTest.index =
      List.range (parseHtml5libDatText text sf).length := by
  unfold parseHtml5libDatText
  have hinv := foldl_stepLine_inv sf
    (fun s => s.tests.map Html5libDatTest.index = List.range s.tests.length ∧
      s.test_index = s.tests.length)
    (fun s raw hs => by
      rcases stepLine_tests_cases sf s raw with ⟨h1, h2⟩ | ⟨h1, h2⟩
      · constructor
        · rw [h1, hs.1]
        · rw [h2, h1]
          exact hs.2
      · have hfl := flush_index_inv sf hs
        constructor
        · rw [h1, hfl.1]
        · rw [h2, h1]
          exact hfl.2)
    (splitlines text) initState ⟨rfl, rfl⟩
  exact (flush_index_inv sf hinv).1

/-- C9: the exit code of `cli.main` is 0 when no backend recorded an error
or a failure; 2 as soon as some backend recorded an error (launch errors
are counted in the same bucket), regardless of failures; and 3 when
comparison is enabled, no error occurred and some backend recorded a
failure — the error check precedes the failure check. -/
theorem C9_exit_codes (summaries : List BrowserSummary) (no_compare : Bool) :
    ((∀ s ∈ summaries, s.error = 0 ∧ s.fail = 0) →
      mainExitCode summaries no_compare = 0) ∧
    ((∃ s ∈ summaries, s.error ≠ 0) →
      mainExitCode summaries no_compare = 2) ∧
    (no_compare = false → (∀ s ∈ summaries, s.error = 0) →
      (∃ s ∈ summaries, s.fail ≠ 0) →
      mainExitCode summaries no_compare = 3) := by
  refine ⟨?_, ?_, ?_⟩
  · intro h
    unfold mainExitCode
    rw [if_neg, if_neg]
    · intro hcon
      obtain ⟨s, hs, hfail⟩ := List.any_eq_true.mp hcon.2
      exact absurd (h s hs).2 (by simpa using hfail)
    · intro hcon
      obtain ⟨s, hs, herr⟩ := List.any_eq_true.mp hcon
      exact absurd (h s hs).1 (by simpa using herr)
  · intro h
    obtain ⟨s, hs, herr⟩ := h
    unfold mainExitCode
    rw [if_pos (List.any_eq_true.mpr ⟨s, hs, by simpa using herr⟩)]
  · intro hnc herr ⟨s, hs, hfail⟩
    unfold mainExitCode
    rw [if_neg, if_pos ⟨hnc, List.any_eq_true.mpr ⟨s, hs, by simpa using hfail⟩⟩]
    intro hcon
    obtain ⟨s', hs', herr'⟩ := List.any_eq_true.mp hcon
    exact absurd (herr s' hs') (by simpa using herr')

/-- C5 counterexample: two texts identical except for one added leading
BLANK line (a line holding a single space, i.e. only whitespace) compare as
`different`, because `_normalize_expected_tree` strips boundary newline
characters before right-stripping lines, so the whitespace-only line
survives as a leading empty line. -/
theorem C5_blank_line_counterexample :
    compareTrees (joinNl [ofS "a"]) (joinNl [ofS " ", ofS "a"])
      = MatchResult.different ∧
    (∀ ch ∈ ofS " ", pyIsSpace ch = true) := by
  constructor
  · decide
  · decide

/-- C5 (amended): two texts built from the same core lines — differing only
in non-linebreak trailing whitespace appended to NON-EMPTY lines and in the
number of EMPTY boundary lines — always compare as `equal` after
normalization. -/
theorem C5_padding_compares_equal (C W1 W2 : List Str) (e1 e2 e1' e2' : Nat)
    (hC : ∀ l ∈ C, ∀ ch ∈ l, isLineBreak ch = false)
    (h1 : List.Forall₂ PadOk C W1) (h2 : List.Forall₂ PadOk C W2) :
    compareTrees (buildText C W1 e1 e2) (buildText C W2 e1' e2')
      = MatchResult.equal := by
  unfold compareTrees
  rw [normalizeTree_buildText e1 e2 h1 hC, normalizeTree_buildText e1' e2' h2 hC,
    if_pos rfl]

/-- C5 witness: a concrete pair — the same core line once padded with a
trailing space plus a leading empty line, once bare with two trailing empty
lines — compares as `equal`. -/
theorem C5_padding_compares_equal_witness :
    compareTrees (buildText [ofS "| a"] [ofS " "] 1 0)
      (buildText [ofS "| a"] [ofS ""] 0 2) = MatchResult.equal :=
  C5_padding_compares_equal [ofS "| a"] [ofS " "] [ofS ""] 1 0 0 2
    (by decide)
    (List.Forall₂.cons ⟨by decide, by decide⟩ List.Forall₂.nil)
    (List.Forall₂.cons ⟨by decide, by decide⟩ List.Forall₂.nil)

/-- C9 witness: concrete runs exercising all three exit codes through
`C9_exit_codes`. -/
theorem C9_exit_codes_witness :
    mainExitCode [⟨3, 0, 0, 1⟩] false = 0 ∧
    mainExitCode [⟨3, 1, 2, 0⟩] false = 2 ∧
    mainExitCode [⟨3, 1, 0, 0⟩] false = 3 :=
  ⟨(C9_exit_codes [⟨3, 0, 0, 1⟩] false).1 (by decide),
   (C9_exit_codes [⟨3, 1, 2, 0⟩] false).2.1 ⟨⟨3, 1, 2, 0⟩, by decide, by decide⟩,
   (C9_exit_codes [⟨3, 1, 0, 0⟩] false).2.2 rfl (by decide)
     ⟨⟨3, 1, 0, 0⟩, by decide, by decide⟩⟩

end HtmlBench
